import Mathlib

/-! hello-sqlite: the typed binding layer of `sqlite3template.hpp`

A shallow embedding of namespace `SQL` of `src/sqlite3template.hpp`:
`get_single`, `set_single`, `set_singles`, `Con::PPSM` and the members
`bindnquery`, `bindnexec`, `query_nothing`, `query_one`, `exec_sql` and the
three transaction members of `Con`.

The engine.

The sqlite3 engine is an external collaborator.  It is modelled by its
answers: every call made on the connection is appended to a `History`, and
the answer of the engine to a call is an arbitrary function of the calls made
before it (`Engine`).  Every call lengthens the history, so every sequence of
answers is the behaviour of some `Engine`, and a theorem stated for every
`Engine` holds whatever the engine answers.  The history doubles as the trace
on which "is issued", "is stepped" and "is finalized" are read: a member takes
the history before the call and gives back the history after it.

Conventions.

* A thrown exception is the `.error` of an `Except`, with its message.
* An output parameter (`int * errid`, `string * err`) is an `Option`: `none`
  for a null pointer, `some x` for a pointer to a variable that holds `x`.
* The connection handle `_db` is the Boolean "non-null"; one statement is in
  use at a time, so statement handles are not named.
* The two loops that wait for the engine (`bindnquery`, `query_nothing`) take
  fuel and give `none` when it runs out; the theorems give the fuel that is
  enough.
* C++ `int` results of the engine are integers, compared with the constants of
  `sqlite3.h`; ordinals and byte counts are natural numbers.  The one
  conversion whose result reaches the caller, the `size_t` row index returned
  through `int` by `bindnexec`, is `size_t_to_int`.  The subtraction of the two
  counter reads is exact (signed overflow is undefined).
* `std::string` and `std::vector<char>` values are lists of bytes; SQL text and
  messages, which are only passed on, are strings.
-/

namespace SQL

/-! ## Values -/

/-- One `char` of a `std::string` or `std::vector<char>`. -/
abbrev Byte := Fin 256

/-- Contents of a `std::string` / `std::vector<char>` value, or of a buffer of
the engine. -/
abbrev Bytes := List Byte

/-- A C++ `double`, carried around by its bit pattern: the layer never
computes with it. -/
structure Double where
  bits : Nat
deriving DecidableEq

/-- The five scalar kinds for which `get_single` and `set_single` are
specialised. -/
inductive Kind where
  | int
  | int64
  | double
  | text
  | blob
deriving DecidableEq

/-- A value of one of the five kinds: `int`, `std::int64_t`, `double`,
`std::string`, `std::vector<char>`. -/
inductive Value where
  | int (v : Int)
  | int64 (v : Int)
  | double (v : Double)
  | text (v : Bytes)
  | blob (v : Bytes)
deriving DecidableEq

/-- Kind of a value. -/
def Value.kind : Value → Kind
  | .int _ => .int
  | .int64 _ => .int64
  | .double _ => .double
  | .text _ => .text
  | .blob _ => .blob

/-- A `std::tuple<ARGS...>` value: its fields in order. -/
abbrev Row := List Value

/-! ## Constants of `sqlite3.h` -/

abbrev SQLITE_OK : Int := 0
abbrev SQLITE_ERROR : Int := 1
abbrev SQLITE_BUSY : Int := 5
abbrev SQLITE_ROW : Int := 100
abbrev SQLITE_DONE : Int := 101
/-- Destructor argument `0` of the bind calls of `set_single`. -/
abbrev SQLITE_STATIC : Int := 0
abbrev SQLITE_TRANSIENT : Int := -1

/-! ## The engine -/

/-- A call made on the connection or on its statement.  Text and blob binds
carry the buffer handed over (what the pointer points to), the byte count and
the destructor argument. -/
inductive Call where
  | total_changes
  | exec (sql : String)
  | free
  | errmsg
  | prepare (sql : String)
  | prepare_v2 (sql : String)
  | reset
  | bind_int (iCol : Nat) (v : Int)
  | bind_int64 (iCol : Nat) (v : Int)
  | bind_double (iCol : Nat) (v : Double)
  | bind_text (iCol : Nat) (buf : Bytes) (n : Nat) (dtor : Int)
  | bind_blob (iCol : Nat) (buf : Bytes) (n : Nat) (dtor : Int)
  | step
  | column_int (iCol : Nat)
  | column_int64 (iCol : Nat)
  | column_double (iCol : Nat)
  | column_text (iCol : Nat)
  | column_bytes (iCol : Nat)
  | column_blob (iCol : Nat)
  | finalize
  | sched_yield
deriving DecidableEq

/-- The calls made so far, oldest first. -/
abbrev History := List Call

/-- Whether a call is one of the `sqlite3_bind_*` calls. -/
def Call.isBind : Call → Bool
  | .bind_int _ _ => true
  | .bind_int64 _ _ => true
  | .bind_double _ _ => true
  | .bind_text _ _ _ _ => true
  | .bind_blob _ _ _ _ => true
  | _ => false

/-- Whether a call is one of the `sqlite3_column_*` calls. -/
def Call.isColumn : Call → Bool
  | .column_int _ => true
  | .column_int64 _ => true
  | .column_double _ => true
  | .column_text _ => true
  | .column_bytes _ => true
  | .column_blob _ => true
  | _ => false

/-- The external collaborators, by their answers.  Each field gives the answer
to one call as a function of the history before that call.  `exec` answers
with the status and the `zErr` message (`none` for a null pointer);
`column_text` and `column_blob` answer with the bytes found at the returned
pointer (`none` for a null pointer), the text buffer ending in its NUL
terminator.  `format` is `CxString::format` applied to a format string and
one `%s` argument. -/
structure Engine where
  total_changes : History → Int
  exec : History → String → Int × Option String
  errmsg : History → String
  prepare : History → String → Int
  prepare_v2 : History → String → Int
  reset : History → Int
  bind : History → Call → Int
  step : History → Int
  finalize : History → Int
  column_int : History → Nat → Int
  column_int64 : History → Nat → Int
  column_double : History → Nat → Double
  column_text : History → Nat → Option Bytes
  column_bytes : History → Nat → Nat
  column_blob : History → Nat → Option Bytes
  format : String → String → String

/-! ### The calls, with their logging -/

def sqlite3_total_changes (E : Engine) (h : History) : Int × History :=
  (E.total_changes h, h ++ [.total_changes])

def sqlite3_exec (E : Engine) (h : History) (sql : String) : (Int × Option String) × History :=
  (E.exec h sql, h ++ [.exec sql])

def sqlite3_free (h : History) : History :=
  h ++ [.free]

def sqlite3_errmsg (E : Engine) (h : History) : String × History :=
  (E.errmsg h, h ++ [.errmsg])

def sqlite3_prepare (E : Engine) (h : History) (sql : String) : Int × History :=
  (E.prepare h sql, h ++ [.prepare sql])

def sqlite3_prepare_v2 (E : Engine) (h : History) (sql : String) : Int × History :=
  (E.prepare_v2 h sql, h ++ [.prepare_v2 sql])

def sqlite3_reset (E : Engine) (h : History) : Int × History :=
  (E.reset h, h ++ [.reset])

/-- Any of `sqlite3_bind_int`, `_int64`, `_double`, `_text`, `_blob`; `c` is
the bind call with its arguments. -/
def sqlite3_bind (E : Engine) (h : History) (c : Call) : Int × History :=
  (E.bind h c, h ++ [c])

def sqlite3_step (E : Engine) (h : History) : Int × History :=
  (E.step h, h ++ [.step])

def sqlite3_finalize (E : Engine) (h : History) : Int × History :=
  (E.finalize h, h ++ [.finalize])

def sqlite3_column_int (E : Engine) (h : History) (iCol : Nat) : Int × History :=
  (E.column_int h iCol, h ++ [.column_int iCol])

def sqlite3_column_int64 (E : Engine) (h : History) (iCol : Nat) : Int × History :=
  (E.column_int64 h iCol, h ++ [.column_int64 iCol])

def sqlite3_column_double (E : Engine) (h : History) (iCol : Nat) : Double × History :=
  (E.column_double h iCol, h ++ [.column_double iCol])

def sqlite3_column_text (E : Engine) (h : History) (iCol : Nat) : Option Bytes × History :=
  (E.column_text h iCol, h ++ [.column_text iCol])

def sqlite3_column_bytes (E : Engine) (h : History) (iCol : Nat) : Nat × History :=
  (E.column_bytes h iCol, h ++ [.column_bytes iCol])

def sqlite3_column_blob (E : Engine) (h : History) (iCol : Nat) : Option Bytes × History :=
  (E.column_blob h iCol, h ++ [.column_blob iCol])

/-- The call `sched_yield()` of the retry loop. -/
def sched_yield (h : History) : History :=
  h ++ [.sched_yield]

/-! ## `get_single` and `set_single` -/

/-- The constructor `std::string(const char*)`: the bytes before the first NUL. -/
def c_string (foo : Bytes) : Bytes :=
  foo.takeWhile (fun b => b != 0)

/-- The vector `r(len)` after `memcpy(r.data(), foo, len)`. -/
def memcpy (foo : Bytes) (len : Nat) : Bytes :=
  foo.take len

/-- The five specialisations of `get_single<T>(ppsm, iCol)`. -/
def get_single (E : Engine) (h : History) : Kind → Nat → Value × History
  | .int, iCol =>
    let (v, h1) := sqlite3_column_int E h iCol
    (.int v, h1)
  | .int64, iCol =>
    let (v, h1) := sqlite3_column_int64 E h iCol
    (.int64 v, h1)
  | .double, iCol =>
    let (v, h1) := sqlite3_column_double E h iCol
    (.double v, h1)
  | .text, iCol =>
    let (foo, h1) := sqlite3_column_text E h iCol
    match foo with
    | some buf => (.text (c_string buf), h1)
    | none => (.text [], h1)
  | .blob, iCol =>
    let (len, h1) := sqlite3_column_bytes E h iCol
    let (foo, h2) := sqlite3_column_blob E h1 iCol
    match foo with
    | some buf => (.blob (memcpy buf len), h2)
    | none => (.blob [], h2)

/-- The bind call that `set_single(ppsm, iCol, v)` makes: for text
`v.c_str(), v.size(), 0`, for a blob `v.data(), v.size(), 0`. -/
def set_single_call (iCol : Nat) : Value → Call
  | .int v => .bind_int iCol v
  | .int64 v => .bind_int64 iCol v
  | .double v => .bind_double iCol v
  | .text v => .bind_text iCol (v ++ [0]) v.length SQLITE_STATIC
  | .blob v => .bind_blob iCol v v.length SQLITE_STATIC

/-- The five specialisations of `set_single(ppsm, iCol, v)`; the result is the
status of the bind call. -/
def set_single (E : Engine) (h : History) (iCol : Nat) (v : Value) : Int × History :=
  sqlite3_bind E h (set_single_call iCol v)

/-- The template recursion `set_singles<I>(ppsm, t)`; the list holds the fields
of `t` from index `I` on, so `[]` is the case `I == sizeof...(Tp)`.  The status
of `set_single` is dropped, as in the source. -/
def set_singles (E : Engine) : Nat → Row → History → History
  | _, [], h => h
  | I, v :: rest, h => set_singles E (I + 1) rest (set_single E h (I + 1) v).2

/-- The pack expansion `get_single<ARGS>(ppsm.me, (col++))...` of the braced
initialiser in `bindnquery`, evaluated left to right; `col` is the value of the
counter before the first remaining element. -/
def get_singles (E : Engine) : List Kind → Nat → History → Row × History
  | [], _, h => ([], h)
  | k :: ks, col, h =>
    let (v, h1) := get_single E h k col
    let (vs, h2) := get_singles E ks (col + 1) h1
    (v :: vs, h2)

/-! ## `Con::PPSM` -/

/-- The constructor of `PPSM`: `.error` is the `SQLRTerror` thrown with the
message of the engine. -/
def PPSM.ctor (E : Engine) (h : History) (query : String) : Except String Unit × History :=
  let (rc, h1) := sqlite3_prepare_v2 E h query
  if rc ≠ SQLITE_OK then
    let (msg, h2) := sqlite3_errmsg E h1
    (.error msg, h2)
  else
    (.ok (), h1)

/-- The loop of `PPSM::bindvals`; `pos` is the counter before the first
remaining value. -/
def PPSM.bindvals (E : Engine) : Nat → List Bytes → History → History
  | _, [], h => h
  | pos, v :: vals, h =>
    PPSM.bindvals E (pos + 1) vals
      (sqlite3_bind E h (.bind_text (pos + 1) (v ++ [0]) v.length SQLITE_TRANSIENT)).2

/-- The destructor of `PPSM`. -/
def PPSM.dtor (E : Engine) (h : History) : History :=
  (sqlite3_finalize E h).2

/-! ## `Con` -/

/-- What `exec_sql` leaves behind: its result, the two output parameters and
the history.  An output parameter is `none` when the pointer is null and
`some x` when it points to a variable holding `x`. -/
structure ExecSql where
  ok : Bool
  errid : Option Int
  err : Option String
  hist : History
deriving DecidableEq

/-- Member `Con::exec_sql`; `db` tells whether `_db` is non-null. -/
def exec_sql (E : Engine) (db : Bool) (h : History) (sql : String)
    (errid : Option Int) (err : Option String) : ExecSql :=
  if !db then
    ⟨false, errid, err, h⟩
  else
    let ((rc, zErr), h1) := sqlite3_exec E h sql
    if rc ≠ SQLITE_OK then
      let errid1 := errid.map (fun _ => rc)
      match zErr with
      | some z => ⟨false, errid1, err.map (fun _ => E.format "sql exec error: %s" z), sqlite3_free h1⟩
      | none => ⟨false, errid1, err, h1⟩
    else
      ⟨true, errid, err, h1⟩

def begin_transaction (E : Engine) (db : Bool) (h : History) : ExecSql :=
  exec_sql E db h "BEGIN" none none

def commit_transaction (E : Engine) (db : Bool) (h : History) : ExecSql :=
  exec_sql E db h "COMMIT" none none

def rollback_transaction (E : Engine) (db : Bool) (h : History) : ExecSql :=
  exec_sql E db h "ROLLBACK" none none

/-- The conversion of the `size_t` index to the 32-bit `int` that `bindnexec`
returns: the value itself below 2^31, reduced modulo 2^32 into the range of
`int` above. -/
def size_t_to_int (i : Nat) : Int :=
  ((i + 2 ^ 31) % 2 ^ 32 : Nat) - 2 ^ 31

/-- The `return` statement through which `bindnexec` left. -/
inductive Exit where
  | no_connection
  | begin_failed
  | prepare_failed
  | row_failed
  | completed
deriving DecidableEq

/-- What `bindnexec` leaves behind: the returned `int`, the `return` statement
taken, the two output parameters and the history. -/
structure ExecResult where
  ret : Int
  exit : Exit
  errid : Option Int
  err : Option String
  hist : History
deriving DecidableEq

/-- Lines 267-280 of `bindnexec`: reset, bind and step of one row.  The status
is `none` when the reset failed (the `continue`), else the status of the step. -/
def bindnexec_row (E : Engine) (h : History) (row : Row) : Option Int × History :=
  let (rc, h1) := sqlite3_reset E h
  if rc ≠ SQLITE_OK then
    (none, h1)
  else
    let h2 := set_singles E 0 row h1
    let (rc, h3) := sqlite3_step E h2
    (some rc, h3)

/-- Lines 283-292 of `bindnexec`, the branch of a failed step with status `rc`:
the two output parameters are set where the pointers are non-null, and the
transaction is rolled back when `bTran` is set. -/
def bindnexec_fail (E : Engine) (db : Bool) (bTran : Bool) (errid : Option Int)
    (err : Option String) (rc : Int) (h3 : History) : Option Int × Option String × History :=
  let errid1 := errid.map (fun _ => rc)
  let (err1, h4) :=
    match err with
    | some _ =>
      let (msg, h4) := sqlite3_errmsg E h3
      (some (E.format "sql exec error: %s" msg), h4)
    | none => (none, h3)
  let h5 := if bTran then (rollback_transaction E db h4).hist else h4
  (errid1, err1, h5)

/-- The `for` loop of `bindnexec` over the rows from index `i` on.  The first
component is `some i` for the `return i`, and `none` when the loop ran out. -/
def bindnexec_loop (E : Engine) (db : Bool) (bTran : Bool) (errid : Option Int)
    (err : Option String) : List Row → Nat → History → Option Nat × Option Int × Option String × History
  | [], _, h => (none, errid, err, h)
  | row :: rest, i, h =>
    match bindnexec_row E h row with
    | (none, h1) => bindnexec_loop E db bTran errid err rest (i + 1) h1
    | (some rc, h3) =>
      if rc ≠ SQLITE_OK ∧ rc ≠ SQLITE_DONE then
        (some i, bindnexec_fail E db bTran errid err rc h3)
      else
        bindnexec_loop E db bTran errid err rest (i + 1) h3

/-- Member `Con::bindnexec`; `db` tells whether `_db` is non-null. -/
def bindnexec (E : Engine) (db : Bool) (h : History) (sql : String) (rows : List Row)
    (bTran : Bool) (errid : Option Int) (err : Option String) : ExecResult :=
  if !db then
    ⟨-1, .no_connection, errid, err, h⟩
  else
    let (result, h1) := sqlite3_total_changes E h
    let b := if bTran then begin_transaction E db h1 else ⟨true, none, none, h1⟩
    if !b.ok then
      ⟨-2, .begin_failed, errid, err, b.hist⟩
    else
      let (rc, h2) := sqlite3_prepare E b.hist sql
      if rc ≠ SQLITE_OK then
        let errid1 := errid.map (fun _ => rc)
        let h3 := if bTran then (rollback_transaction E db h2).hist else h2
        ⟨-2, .prepare_failed, errid1, err, h3⟩
      else
        match bindnexec_loop E db bTran errid err rows 0 h2 with
        | (some i, errid1, err1, h3) => ⟨size_t_to_int i, .row_failed, errid1, err1, h3⟩
        | (none, errid1, err1, h3) =>
          let h4 := (sqlite3_finalize E h3).2
          let h5 := if bTran then (commit_transaction E db h4).hist else h4
          let (after, h6) := sqlite3_total_changes E h5
          ⟨after - result, .completed, errid1, err1, h6⟩

/-- The loop `while (sqlite3_step(ppsm.me) == SQLITE_ROW)` of `bindnquery`,
with `answer` the vector built so far.  `none` when the fuel runs out before
the engine answers something other than `SQLITE_ROW`. -/
def bindnquery_loop (E : Engine) (ARGS : List Kind) : Nat → History → List Row → Option (List Row × History)
  | 0, _, _ => none
  | fuel + 1, h, answer =>
    let (rc, h1) := sqlite3_step E h
    if rc = SQLITE_ROW then
      let (r, h2) := get_singles E ARGS 0 h1
      bindnquery_loop E ARGS fuel h2 (answer ++ [r])
    else
      some (answer, h1)

/-- Member `Con::bindnquery<ARGS...>`.  `.error` is the exception that leaves the
call; the destructor of `ppsm` runs on the way out once `ppsm` is constructed. -/
def bindnquery (E : Engine) (ARGS : List Kind) (fuel : Nat) (h : History) (query : String)
    (bindvals : List Bytes) : Option (Except String (List Row) × History) :=
  match PPSM.ctor E h query with
  | (.error e, h1) => some (.error e, h1)
  | (.ok (), h1) =>
    let h2 := PPSM.bindvals E 0 bindvals h1
    match bindnquery_loop E ARGS fuel h2 [] with
    | none => none
    | some (answer, h3) => some (.ok answer, PPSM.dtor E h3)

/-- The `do ... while (result == SQLITE_BUSY)` loop of `query_nothing`; `none`
when the fuel runs out while the engine is still busy. -/
def query_nothing_retry (E : Engine) : Nat → History → Option History
  | 0, _ => none
  | fuel + 1, h =>
    let h1 := sched_yield h
    let (result, h2) := sqlite3_step E h1
    if result = SQLITE_BUSY then query_nothing_retry E fuel h2 else some h2

/-- Member `Con::query_nothing`. -/
def query_nothing (E : Engine) (fuel : Nat) (h : History) (query : String)
    (bindvals : List Bytes) : Option (Except String Unit × History) :=
  match PPSM.ctor E h query with
  | (.error e, h1) => some (.error e, h1)
  | (.ok (), h1) =>
    let h2 := PPSM.bindvals E 0 bindvals h1
    let (result, h3) := sqlite3_step E h2
    if result = SQLITE_BUSY then
      match query_nothing_retry E fuel h3 with
      | none => none
      | some h4 => some (.ok (), PPSM.dtor E h4)
    else
      some (.ok (), PPSM.dtor E h3)

/-- Member `Con::query_one<QType>`. -/
def query_one (E : Engine) (QType : Kind) (h : History) (query : String)
    (bindvals : List Bytes) : Except String Value × History :=
  match PPSM.ctor E h query with
  | (.error e, h1) => (.error e, h1)
  | (.ok (), h1) =>
    let h2 := PPSM.bindvals E 0 bindvals h1
    let (rc, h3) := sqlite3_step E h2
    if rc ≠ SQLITE_ROW then
      (.error ("Query did not yield answer:" ++ query), PPSM.dtor E h3)
    else
      let (v, h4) := get_single E h3 QType 0
      (.ok v, PPSM.dtor E h4)

/-! ## Vocabulary of the statements -/

/-- The history `bindnexec` leaves when its loop runs over `rows` from `h`
without meeting a failing step. -/
def rows_run (E : Engine) : List Row → History → History
  | [], h => h
  | row :: rest, h => rows_run E rest (bindnexec_row E h row).2

/-- The history at which `bindnexec` calls `sqlite3_prepare` on a live
connection, the `BEGIN` having succeeded when `bTran` is set. -/
def prepare_point (h : History) (bTran : Bool) : History :=
  if bTran then h ++ [.total_changes, .exec "BEGIN"] else h ++ [.total_changes]

/-- The history at which the loop of `bindnexec` starts. -/
def loop_start (h : History) (bTran : Bool) (sql : String) : History :=
  prepare_point h bTran ++ [.prepare sql]

/-- Whether the status of a row is that of a failed step: the reset succeeded
and the step answered neither `SQLITE_OK` nor `SQLITE_DONE`. -/
def step_fails : Option Int → Bool
  | none => false
  | some rc => rc != SQLITE_OK && rc != SQLITE_DONE

/-- The status of row `j` of the batch when the loop, started at `h0`, reaches
it: `none` when there is no such row or its reset fails, else the status of
its step. -/
def row_status (E : Engine) (h0 : History) (rows : List Row) (j : Nat) : Option Int :=
  match rows[j]? with
  | none => none
  | some row => (bindnexec_row E (rows_run E (rows.take j) h0) row).1

/-- Whether row `j` of the batch fails when the loop, started at `h0`, reaches
it: its reset succeeds and its step answers neither `SQLITE_OK` nor
`SQLITE_DONE`. -/
def fails_at (E : Engine) (h0 : History) (rows : List Row) (j : Nat) : Bool :=
  step_fails (row_status E h0 rows j)

/-- The history after the constructor of `PPSM` succeeded and `bindvals` ran:
the point of the first `sqlite3_step` of `bindnquery`, `query_one` and
`query_nothing`. -/
def bound_point (E : Engine) (h : History) (query : String) (bindvals : List Bytes) : History :=
  PPSM.bindvals E 0 bindvals (h ++ [.prepare_v2 query])

/-- The history at which `query_nothing` makes its step number `j` (from 0),
the earlier ones having answered `SQLITE_BUSY`. -/
def retry_point (h2 : History) : Nat → History
  | 0 => h2
  | j + 1 => retry_point h2 j ++ [.step, .sched_yield]

/-- The engine calls of one `get_single<T>(ppsm, iCol)`. -/
def column_calls : Kind → Nat → List Call
  | .int, iCol => [.column_int iCol]
  | .int64, iCol => [.column_int64 iCol]
  | .double, iCol => [.column_double iCol]
  | .text, iCol => [.column_text iCol]
  | .blob, iCol => [.column_bytes iCol, .column_blob iCol]

/-- The column reads of a tuple of shape `ARGS`: for each field index `k`, in
increasing order, the calls of `get_single` of the kind of field `k` at column
ordinal `k`. -/
def row_reads (ARGS : List Kind) : List Call :=
  ARGS.enum.flatMap (fun p => column_calls p.2 p.1)

/-- The history at which `bindnquery` makes its step number `j` (from 0), the
earlier ones having answered `SQLITE_ROW`. -/
def fetch_point (ARGS : List Kind) (h2 : History) : Nat → History
  | 0 => h2
  | j + 1 => fetch_point ARGS h2 j ++ .step :: row_reads ARGS

/-- The number of `SQLITE_ROW` statuses before the first `SQLITE_DONE` in a
sequence of step statuses. -/
def rows_before_done (statuses : List Int) : Nat :=
  ((statuses.takeWhile (fun rc => rc != SQLITE_DONE)).filter (fun rc => rc == SQLITE_ROW)).length

/-- The parameter or column ordinal a bind or column call is made at. -/
def Call.ordinal : Call → Option Nat
  | .bind_int i _ => some i
  | .bind_int64 i _ => some i
  | .bind_double i _ => some i
  | .bind_text i _ _ _ => some i
  | .bind_blob i _ _ _ => some i
  | .column_int i => some i
  | .column_int64 i => some i
  | .column_double i => some i
  | .column_text i => some i
  | .column_bytes i => some i
  | .column_blob i => some i
  | _ => none

/-- The engine holds in column `c`, at history `h`, exactly what the bind
call `b` handed over: the number for the three numeric binds; for text the
first `n` bytes of the buffer, followed by the NUL terminator; for a blob the
byte count `n` and, at the read of the pointer that follows the read of the
count, either the first `n` bytes of the buffer or, for an empty blob, a null
pointer. -/
def holds_bound (E : Engine) (h : History) (c : Nat) : Call → Prop
  | .bind_int _ v => E.column_int h c = v
  | .bind_int64 _ v => E.column_int64 h c = v
  | .bind_double _ v => E.column_double h c = v
  | .bind_text _ buf n _ => E.column_text h c = some (buf.take n ++ [0])
  | .bind_blob _ buf n _ =>
    E.column_bytes h c = n ∧
      (E.column_blob (h ++ [.column_bytes c]) c = some (buf.take n) ∨
        (n = 0 ∧ E.column_blob (h ++ [.column_bytes c]) c = none))
  | _ => False

/-! ## A scripted engine -/

/-- Whether a call binds parameter ordinal `i`. -/
def Call.bindsAt (i : Nat) : Call → Bool
  | .bind_int j _ => j == i
  | .bind_int64 j _ => j == i
  | .bind_double j _ => j == i
  | .bind_text j _ _ _ => j == i
  | .bind_blob j _ _ _ => j == i
  | _ => false

/-- The latest bind call at parameter ordinal `i`. -/
def bound (h : History) (i : Nat) : Option Call :=
  h.reverse.find? (Call.bindsAt i)

/-- A scripted engine that stores exactly what it is given.  Both prepare
calls answer `prep`; reset number `j` answers `resets[j]` (`SQLITE_OK` past
the script) and step number `j` answers `steps[j]` (`SQLITE_DONE` past the
script); the total-changes counter is the number of steps made.  Column `c`
holds what was last bound to parameter `c + 1`, as for `SELECT ?1, ?2, ...`:
text comes back as the stored bytes followed by the NUL terminator, an empty
blob as a null pointer. -/
def stub (prep : Int) (resets steps : List Int) : Engine where
  total_changes := fun h => (h.count .step : Nat)
  exec := fun _ _ => (SQLITE_OK, none)
  errmsg := fun _ => "engine message"
  prepare := fun _ _ => prep
  prepare_v2 := fun _ _ => prep
  reset := fun h => resets.getD (h.count .reset) SQLITE_OK
  bind := fun _ _ => SQLITE_OK
  step := fun h => steps.getD (h.count .step) SQLITE_DONE
  finalize := fun _ => SQLITE_OK
  column_int := fun h c =>
    match bound h (c + 1) with
    | some (.bind_int _ v) => v
    | _ => 0
  column_int64 := fun h c =>
    match bound h (c + 1) with
    | some (.bind_int64 _ v) => v
    | _ => 0
  column_double := fun h c =>
    match bound h (c + 1) with
    | some (.bind_double _ v) => v
    | _ => ⟨0⟩
  column_text := fun h c =>
    match bound h (c + 1) with
    | some (.bind_text _ buf n _) => some (buf.take n ++ [0])
    | _ => none
  column_bytes := fun h c =>
    match bound h (c + 1) with
    | some (.bind_text _ _ n _) => n
    | some (.bind_blob _ _ n _) => n
    | _ => 0
  column_blob := fun h c =>
    match bound h (c + 1) with
    | some (.bind_blob _ buf n _) => if n = 0 then none else some (buf.take n)
    | _ => none
  format := fun fmt arg => fmt ++ arg

/-- An engine whose step number `n` (from 0) answers `SQLITE_ERROR` and whose
every other step answers `SQLITE_DONE`; all other calls succeed and the
columns are empty. -/
def failing_step (n : Nat) : Engine where
  total_changes := fun h => (h.count .step : Nat)
  exec := fun _ _ => (SQLITE_OK, none)
  errmsg := fun _ => "engine message"
  prepare := fun _ _ => SQLITE_OK
  prepare_v2 := fun _ _ => SQLITE_OK
  reset := fun _ => SQLITE_OK
  bind := fun _ _ => SQLITE_OK
  step := fun h => if h.count .step = n then SQLITE_ERROR else SQLITE_DONE
  finalize := fun _ => SQLITE_OK
  column_int := fun _ _ => 0
  column_int64 := fun _ _ => 0
  column_double := fun _ _ => ⟨0⟩
  column_text := fun _ _ => none
  column_bytes := fun _ _ => 0
  column_blob := fun _ _ => none
  format := fun fmt arg => fmt ++ arg

/-! ## Lemmas: the calls each function adds -/

section Lemmas

theorem set_singles_eq (E : Engine) (row : Row) : ∀ (I : Nat) (h : History),
    set_singles E I row h = h ++ (row.enumFrom I).map (fun p => set_single_call (p.1 + 1) p.2) := by
  induction row with
  | nil => intro I h; simp [set_singles]
  | cons v rest ih =>
    intro I h
    simp [set_singles, set_single, sqlite3_bind, ih, List.enumFrom]

theorem set_single_call_isBind (i : Nat) (v : Value) : (set_single_call i v).isBind = true := by
  cases v <;> rfl

theorem set_single_call_ne_reset (i : Nat) (v : Value) : set_single_call i v ≠ .reset := by
  cases v <;> simp [set_single_call]

theorem set_single_call_ne_step (i : Nat) (v : Value) : set_single_call i v ≠ .step := by
  cases v <;> simp [set_single_call]

/-- The calls of one pass of the loop body of `bindnexec`. -/
theorem bindnexec_row_hist (E : Engine) (h : History) (row : Row) :
    ∃ t, (bindnexec_row E h row).2 = h ++ .reset :: t ∧
      (∀ c ∈ t, c = .step ∨ c.isBind = true) ∧
      t.count .step ≤ 1 ∧ t.count .reset = 0 ∧ t.countP Call.isBind ≤ row.length := by
  unfold bindnexec_row
  simp only [sqlite3_reset, sqlite3_step]
  split
  · exact ⟨[], by simp⟩
  · refine ⟨(row.enumFrom 0).map (fun p => set_single_call (p.1 + 1) p.2) ++ [.step], ?_, ?_, ?_, ?_, ?_⟩
    · simp [set_singles_eq]
    · intro c hc
      simp only [List.mem_append, List.mem_map, List.mem_singleton] at hc
      rcases hc with ⟨p, _, rfl⟩ | rfl
      · exact Or.inr (set_single_call_isBind _ _)
      · exact Or.inl rfl
    · rw [List.count_append]
      have : List.count Call.step ((row.enumFrom 0).map (fun p => set_single_call (p.1 + 1) p.2)) = 0 := by
        rw [List.count_eq_zero]
        intro hc
        simp only [List.mem_map] at hc
        obtain ⟨p, _, hp⟩ := hc
        exact set_single_call_ne_step _ _ hp
      simp [this]
    · rw [List.count_eq_zero]
      intro hc
      simp only [List.mem_append, List.mem_map, List.mem_singleton] at hc
      rcases hc with ⟨p, _, hp⟩ | hp
      · exact set_single_call_ne_reset _ _ hp
      · cases hp
    · rw [List.countP_append]
      have h1 : List.countP Call.isBind ((row.enumFrom 0).map (fun p => set_single_call (p.1 + 1) p.2)) ≤ row.length := by
        calc _ ≤ ((row.enumFrom 0).map (fun p => set_single_call (p.1 + 1) p.2)).length := List.countP_le_length _
          _ = row.length := by simp
      have h2 : List.countP Call.isBind [Call.step] = 0 := by decide
      omega

/-- The calls of a run of the loop of `bindnexec` that meets no failing step. -/
theorem rows_run_hist (E : Engine) (rows : List Row) : ∀ (h : History),
    ∃ t, rows_run E rows h = h ++ t ∧
      (∀ c ∈ t, c = .reset ∨ c = .step ∨ c.isBind = true) ∧
      t.count .reset = rows.length ∧ t.count .step ≤ rows.length ∧
      t.countP Call.isBind ≤ (rows.map List.length).sum := by
  induction rows with
  | nil => intro h; exact ⟨[], by simp [rows_run]⟩
  | cons row rest ih =>
    intro h
    obtain ⟨t1, e1, m1, s1, r1, b1⟩ := bindnexec_row_hist E h row
    obtain ⟨t2, e2, m2, r2, s2, b2⟩ := ih (bindnexec_row E h row).2
    refine ⟨.reset :: t1 ++ t2, ?_, ?_, ?_, ?_, ?_⟩
    · rw [rows_run, e2, e1]; simp
    · intro c hc
      simp only [List.cons_append, List.mem_cons, List.mem_append] at hc
      rcases hc with rfl | hc | hc
      · exact Or.inl rfl
      · exact Or.inr (m1 c hc)
      · exact m2 c hc
    · simp [List.count_append, List.count_cons, r1, r2]
    · have : List.count Call.step (Call.reset :: t1 ++ t2)
          = List.count Call.step t1 + List.count Call.step t2 := by
        simp [List.count_append, List.count_cons]
      simp only [this, List.length_cons]
      omega
    · have hr : Call.isBind Call.reset = false := rfl
      simp only [List.cons_append, List.countP_cons, List.countP_append, hr, List.map_cons,
        List.sum_cons]
      simp
      omega

/-- The calls of `exec_sql` on a live connection: the statement, and the
release of the message when there is one. -/
theorem exec_sql_hist (E : Engine) (h : History) (sql : String) (errid : Option Int)
    (err : Option String) :
    (exec_sql E true h sql errid err).hist = h ++ [.exec sql] ∨
    (exec_sql E true h sql errid err).hist = h ++ [.exec sql, .free] := by
  unfold exec_sql
  simp only [sqlite3_exec, sqlite3_free, Bool.not_true, Bool.false_eq_true, if_false]
  split
  · split
    · right; simp
    · left; rfl
  · left; rfl

/-- What `exec_sql` answers on a live connection. -/
theorem exec_sql_ok (E : Engine) (h : History) (sql : String) (errid : Option Int)
    (err : Option String) :
    (exec_sql E true h sql errid err).ok = decide ((E.exec h sql).1 = SQLITE_OK) := by
  unfold exec_sql
  simp only [sqlite3_exec, sqlite3_free, Bool.not_true, Bool.false_eq_true, if_false]
  split
  · rename_i hne
    split <;> simp [hne]
  · rename_i hne
    simp only [ne_eq, Decidable.not_not] at hne
    simp [hne]

theorem exec_sql_hist_of_ok (E : Engine) (h : History) (sql : String) (errid : Option Int)
    (err : Option String) (hok : (E.exec h sql).1 = SQLITE_OK) :
    (exec_sql E true h sql errid err).hist = h ++ [.exec sql] := by
  unfold exec_sql
  simp [sqlite3_exec, hok]

/-- The calls of the failure branch of `bindnexec` on a live connection. -/
theorem bindnexec_fail_hist (E : Engine) (bTran : Bool) (errid : Option Int)
    (err : Option String) (rc : Int) (h3 : History) :
    ∃ t, (bindnexec_fail E true bTran errid err rc h3).2.2 = h3 ++ t ∧
      (∀ c ∈ t, c = .errmsg ∨ c = .exec "ROLLBACK" ∨ c = .free) ∧
      t.count (.exec "ROLLBACK") = (if bTran then 1 else 0) := by
  unfold bindnexec_fail
  cases err with
  | none =>
    cases bTran with
    | false => exact ⟨[], by simp⟩
    | true =>
      rcases exec_sql_hist E h3 "ROLLBACK" none none with e | e
      · exact ⟨[.exec "ROLLBACK"], by simp [rollback_transaction, e]⟩
      · exact ⟨[.exec "ROLLBACK", .free], by simp [rollback_transaction, e]⟩
  | some m =>
    cases bTran with
    | false => exact ⟨[.errmsg], by simp [sqlite3_errmsg]⟩
    | true =>
      rcases exec_sql_hist E (h3 ++ [.errmsg]) "ROLLBACK" none none with e | e
      · exact ⟨[.errmsg, .exec "ROLLBACK"], by simp [rollback_transaction, sqlite3_errmsg, e]⟩
      · exact ⟨[.errmsg, .exec "ROLLBACK", .free], by simp [rollback_transaction, sqlite3_errmsg, e]⟩

/-! ## Lemmas: the loop of `bindnexec` -/

theorem row_status_zero (E : Engine) (h : History) (row : Row) (rest : List Row) :
    row_status E h (row :: rest) 0 = (bindnexec_row E h row).1 := by
  simp [row_status, rows_run]

theorem row_status_succ (E : Engine) (h : History) (row : Row) (rest : List Row) (j : Nat) :
    row_status E h (row :: rest) (j + 1) = row_status E (bindnexec_row E h row).2 rest j := by
  simp [row_status, rows_run]

theorem row_status_take (E : Engine) (h : History) (rows : List Row) (k j : Nat) (hj : j < k) :
    row_status E h (rows.take k) j = row_status E h rows j := by
  unfold row_status
  have h1 : (rows.take k)[j]? = rows[j]? := by
    rw [List.getElem?_take]; simp [hj]
  have h2 : (rows.take k).take j = rows.take j := by
    rw [List.take_take]; congr 1; omega
  rw [h1, h2]

theorem fails_at_zero (E : Engine) (h : History) (row : Row) (rest : List Row) :
    fails_at E h (row :: rest) 0 = step_fails (bindnexec_row E h row).1 := by
  simp [fails_at, row_status_zero]

theorem fails_at_succ (E : Engine) (h : History) (row : Row) (rest : List Row) (j : Nat) :
    fails_at E h (row :: rest) (j + 1) = fails_at E (bindnexec_row E h row).2 rest j := by
  simp [fails_at, row_status_succ]

theorem fails_at_lt (E : Engine) (h : History) (rows : List Row) (j : Nat)
    (hf : fails_at E h rows j = true) : j < rows.length := by
  by_contra hlt
  have : rows[j]? = none := by simp; omega
  simp [fails_at, row_status, this, step_fails] at hf

theorem fails_at_take (E : Engine) (h : History) (rows : List Row) (k j : Nat) (hj : j < k) :
    fails_at E h (rows.take k) j = fails_at E h rows j := by
  simp [fails_at, row_status_take E h rows k j hj]

/-- The loop runs to its end when no row fails. -/
theorem loop_completed (E : Engine) (db bTran : Bool) (errid : Option Int) (err : Option String)
    (rows : List Row) : ∀ (i : Nat) (h : History),
    (∀ j, fails_at E h rows j = false) →
    bindnexec_loop E db bTran errid err rows i h = (none, errid, err, rows_run E rows h) := by
  induction rows with
  | nil => intro i h _; rfl
  | cons row rest ih =>
    intro i h hall
    have h0 := hall 0
    rw [fails_at_zero] at h0
    have hrest : ∀ j, fails_at E (bindnexec_row E h row).2 rest j = false := by
      intro j; rw [← fails_at_succ]; exact hall (j + 1)
    rw [bindnexec_loop, rows_run]
    rcases hrow : bindnexec_row E h row with ⟨st, h1⟩
    rw [hrow] at h0 hrest
    cases st with
    | none => exact ih _ _ hrest
    | some rc =>
      have hok : ¬ (rc ≠ SQLITE_OK ∧ rc ≠ SQLITE_DONE) := by
        simpa [step_fails] using h0
      simp only [hok, if_false]
      exact ih _ _ hrest

/-- The loop leaves at the first failing row. -/
theorem loop_failed (E : Engine) (db bTran : Bool) (errid : Option Int) (err : Option String)
    (rows : List Row) : ∀ (i : Nat) (h : History) (k : Nat),
    fails_at E h rows k = true → (∀ j, j < k → fails_at E h rows j = false) →
    ∃ rc, row_status E h rows k = some rc ∧ (rc ≠ SQLITE_OK ∧ rc ≠ SQLITE_DONE) ∧
      bindnexec_loop E db bTran errid err rows i h
        = (some (i + k), bindnexec_fail E db bTran errid err rc (rows_run E (rows.take (k + 1)) h)) := by
  induction rows with
  | nil => intro i h k hf _; simp [fails_at, row_status, step_fails] at hf
  | cons row rest ih =>
    intro i h k hf hmin
    cases k with
    | zero =>
      rw [fails_at_zero] at hf
      rw [bindnexec_loop]
      rcases hrow : bindnexec_row E h row with ⟨st, h1⟩
      rw [hrow] at hf
      cases st with
      | none => simp [step_fails] at hf
      | some rc =>
        have hbad : rc ≠ SQLITE_OK ∧ rc ≠ SQLITE_DONE := by
          simpa [step_fails] using hf
        refine ⟨rc, by rw [row_status_zero, hrow], hbad, ?_⟩
        have hrun : rows_run E ((row :: rest).take (0 + 1)) h = h1 := by
          simp [rows_run, hrow]
        rw [hrun]
        show (if rc ≠ SQLITE_OK ∧ rc ≠ SQLITE_DONE then
            (some i, bindnexec_fail E db bTran errid err rc h1)
          else bindnexec_loop E db bTran errid err rest (i + 1) h1) = _
        rw [if_pos hbad]
        rfl
    | succ k =>
      have h0 := hmin 0 (Nat.succ_pos k)
      rw [fails_at_zero] at h0
      rw [fails_at_succ] at hf
      have hmin2 : ∀ j, j < k → fails_at E (bindnexec_row E h row).2 rest j = false := by
        intro j hj; rw [← fails_at_succ]; exact hmin (j + 1) (Nat.succ_lt_succ hj)
      rw [bindnexec_loop]
      rcases hrow : bindnexec_row E h row with ⟨st, h1⟩
      rw [hrow] at h0 hf hmin2
      have hrun : rows_run E ((row :: rest).take (k + 1 + 1)) h = rows_run E (rest.take (k + 1)) h1 := by
        simp [rows_run, hrow]
      rw [hrun]
      have harith : i + (k + 1) = i + 1 + k := by omega
      rw [harith, row_status_succ, hrow]
      cases st with
      | none => exact ih (i + 1) h1 k hf hmin2
      | some rc =>
        have hok : ¬ (rc ≠ SQLITE_OK ∧ rc ≠ SQLITE_DONE) := by
          simpa [step_fails] using h0
        simp only [hok, if_false]
        exact ih (i + 1) h1 k hf hmin2

/-- The body of `bindnexec` on a live connection, past a successful `BEGIN`
and a successful prepare. -/
theorem bindnexec_live (E : Engine) (h : History) (sql : String) (rows : List Row)
    (bTran : Bool) (errid : Option Int) (err : Option String)
    (hbegin : bTran = true → (E.exec (h ++ [.total_changes]) "BEGIN").1 = SQLITE_OK)
    (hprep : E.prepare (prepare_point h bTran) sql = SQLITE_OK) :
    bindnexec E true h sql rows bTran errid err =
      match bindnexec_loop E true bTran errid err rows 0 (loop_start h bTran sql) with
      | (some i, errid1, err1, h3) => ⟨size_t_to_int i, .row_failed, errid1, err1, h3⟩
      | (none, errid1, err1, h3) =>
        ⟨E.total_changes
            (if bTran then (commit_transaction E true (h3 ++ [.finalize])).hist else h3 ++ [.finalize])
          - E.total_changes h, .completed, errid1, err1,
          (if bTran then (commit_transaction E true (h3 ++ [.finalize])).hist else h3 ++ [.finalize])
            ++ [.total_changes]⟩ := by
  cases bTran with
  | false =>
    have hp : E.prepare (h ++ [.total_changes]) sql = SQLITE_OK := by
      simpa [prepare_point] using hprep
    simp [bindnexec, sqlite3_total_changes, sqlite3_prepare, sqlite3_finalize, hp, loop_start,
      prepare_point]
  | true =>
    have hb := hbegin rfl
    have hp : E.prepare (h ++ [.total_changes, .exec "BEGIN"]) sql = SQLITE_OK := by
      simpa [prepare_point] using hprep
    have hbh := exec_sql_hist_of_ok E (h ++ [.total_changes]) "BEGIN" none none hb
    have hbo := exec_sql_ok E (h ++ [.total_changes]) "BEGIN" none none
    simp [hb] at hbo
    simp [bindnexec, sqlite3_total_changes, sqlite3_prepare, sqlite3_finalize, begin_transaction,
      hbh, hbo, hp, loop_start, prepare_point]

/-- The result of `bindnexec` when row `i` is the first to fail. -/
theorem bindnexec_failed_eq (E : Engine) (h : History) (sql : String) (rows : List Row)
    (bTran : Bool) (errid : Option Int) (err : Option String) (i : Nat)
    (hbegin : bTran = true → (E.exec (h ++ [.total_changes]) "BEGIN").1 = SQLITE_OK)
    (hprep : E.prepare (prepare_point h bTran) sql = SQLITE_OK)
    (hfail : fails_at E (loop_start h bTran sql) rows i = true)
    (hmin : ∀ j, j < i → fails_at E (loop_start h bTran sql) rows j = false) :
    ∃ rc, row_status E (loop_start h bTran sql) rows i = some rc ∧
      (rc ≠ SQLITE_OK ∧ rc ≠ SQLITE_DONE) ∧
      bindnexec E true h sql rows bTran errid err =
        ⟨size_t_to_int i, .row_failed,
          (bindnexec_fail E true bTran errid err rc
            (rows_run E (rows.take (i + 1)) (loop_start h bTran sql))).1,
          (bindnexec_fail E true bTran errid err rc
            (rows_run E (rows.take (i + 1)) (loop_start h bTran sql))).2.1,
          (bindnexec_fail E true bTran errid err rc
            (rows_run E (rows.take (i + 1)) (loop_start h bTran sql))).2.2⟩ := by
  obtain ⟨rc, hst, hbad, hloop⟩ :=
    loop_failed E true bTran errid err rows 0 (loop_start h bTran sql) i hfail hmin
  refine ⟨rc, hst, hbad, ?_⟩
  rw [bindnexec_live E h sql rows bTran errid err hbegin hprep, hloop]
  simp

/-- The calls `bindnexec` adds up to the start of its loop. -/
theorem loop_start_eq (h : History) (bTran : Bool) (sql : String) :
    ∃ s, loop_start h bTran sql = h ++ s ∧
      (∀ c ∈ s, c = .total_changes ∨ c = .exec "BEGIN" ∨ c = .prepare sql) := by
  cases bTran with
  | false => exact ⟨[.total_changes, .prepare sql], by simp [loop_start, prepare_point]⟩
  | true =>
    exact ⟨[.total_changes, .exec "BEGIN", .prepare sql], by simp [loop_start, prepare_point]⟩

theorem size_t_to_int_of_lt (i : Nat) (hi : i < 2 ^ 31) : size_t_to_int i = (i : Int) := by
  unfold size_t_to_int
  have h1 : (i + 2 ^ 31) % 2 ^ 32 = i + 2 ^ 31 := Nat.mod_eq_of_lt (by omega)
  rw [h1]
  push_cast
  ring

/-- The calls of a run of `bindnexec` whose first failing row is row `i`: those
up to the loop, those of the rows up to `i`, those of the failure branch. -/
theorem bindnexec_failed_hist (E : Engine) (h : History) (sql : String) (rows : List Row)
    (bTran : Bool) (errid : Option Int) (err : Option String) (i : Nat)
    (hbegin : bTran = true → (E.exec (h ++ [.total_changes]) "BEGIN").1 = SQLITE_OK)
    (hprep : E.prepare (prepare_point h bTran) sql = SQLITE_OK)
    (hfail : fails_at E (loop_start h bTran sql) rows i = true)
    (hmin : ∀ j, j < i → fails_at E (loop_start h bTran sql) rows j = false) :
    ∃ s t1 t2, (bindnexec E true h sql rows bTran errid err).hist = h ++ s ++ t1 ++ t2 ∧
      (∀ c ∈ s, c = .total_changes ∨ c = .exec "BEGIN" ∨ c = .prepare sql) ∧
      (∀ c ∈ t1, c = .reset ∨ c = .step ∨ c.isBind = true) ∧
      t1.count .reset = i + 1 ∧ t1.count .step ≤ i + 1 ∧
      t1.countP Call.isBind ≤ ((rows.take (i + 1)).map List.length).sum ∧
      (∀ c ∈ t2, c = .errmsg ∨ c = .exec "ROLLBACK" ∨ c = .free) ∧
      t2.count (.exec "ROLLBACK") = (if bTran then 1 else 0) := by
  obtain ⟨rc, _, _, heq⟩ := bindnexec_failed_eq E h sql rows bTran errid err i hbegin hprep hfail hmin
  obtain ⟨s, es, ms⟩ := loop_start_eq h bTran sql
  obtain ⟨t1, e1, m1, r1, s1, b1⟩ := rows_run_hist E (rows.take (i + 1)) (loop_start h bTran sql)
  obtain ⟨t2, e2, m2, c2⟩ := bindnexec_fail_hist E bTran errid err rc
    (rows_run E (rows.take (i + 1)) (loop_start h bTran sql))
  have hlen : (rows.take (i + 1)).length = i + 1 := by
    have := fails_at_lt E _ rows i hfail
    simp; omega
  refine ⟨s, t1, t2, ?_, ms, m1, ?_, ?_, b1, m2, c2⟩
  · rw [heq]; simp only; rw [e2, e1, es]
  · rw [r1, hlen]
  · rw [hlen] at s1; exact s1

/-- One pass of the loop body on an empty tuple, the reset succeeding. -/
theorem bindnexec_row_nil (E : Engine) (h : History) (hreset : E.reset h = SQLITE_OK) :
    bindnexec_row E h [] = (some (E.step (h ++ [.reset])), h ++ [.reset, .step]) := by
  simp [bindnexec_row, sqlite3_reset, sqlite3_step, set_singles, hreset]

/-- The steps of a run over `j` empty tuples on an engine whose resets succeed. -/
theorem rows_run_replicate_nil (E : Engine) (hreset : ∀ h, E.reset h = SQLITE_OK) :
    ∀ (j : Nat) (h : History),
    (rows_run E (List.replicate j []) h).count .step = h.count .step + j := by
  intro j
  induction j with
  | zero => intro h; simp [rows_run]
  | succ j ih =>
    intro h
    rw [List.replicate_succ, rows_run, bindnexec_row_nil E h (hreset h), ih]
    simp [List.count_append, List.count_cons]
    omega

/-- On the engine whose step number `n` fails, in a batch of `m` empty tuples
started at a history without a step, the row that fails is row `n`. -/
theorem failing_step_fails_at (n m j : Nat) (h0 : History) (h0c : h0.count .step = 0)
    (hj : j < m) :
    fails_at (failing_step n) h0 (List.replicate m []) j = decide (j = n) := by
  have hreset : ∀ h, (failing_step n).reset h = SQLITE_OK := fun _ => rfl
  have hget : (List.replicate m ([] : Row))[j]? = some [] := by
    rw [List.getElem?_replicate]; simp [hj]
  have htake : (List.replicate m ([] : Row)).take j = List.replicate j [] := by
    rw [List.take_replicate]; congr 1; omega
  have hcount := rows_run_replicate_nil (failing_step n) hreset j h0
  rw [h0c, Nat.zero_add] at hcount
  unfold fails_at row_status
  rw [hget]
  simp only [htake]
  rw [bindnexec_row_nil _ _ (hreset _)]
  have hstep : (failing_step n).step (rows_run (failing_step n) (List.replicate j []) h0
      ++ [.reset]) = if j = n then SQLITE_ERROR else SQLITE_DONE := by
    show (if (rows_run (failing_step n) (List.replicate j []) h0 ++ [Call.reset]).count .step = n
      then SQLITE_ERROR else SQLITE_DONE) = _
    rw [List.count_append, hcount]
    simp
  simp only [hstep]
  by_cases hjn : j = n
  · simp [hjn, step_fails]
  · simp [hjn, step_fails]

/-- C1 as stated fails: in a batch of 2^31 + 1 rows whose last row, row 2^31,
is the first whose step fails, the index returned through `int` is
-2147483648, not 2^31. -/
theorem bindnexec_index_beyond_int :
    fails_at (failing_step (2 ^ 31)) (loop_start [] false "INSERT")
      (List.replicate (2 ^ 31 + 1) []) (2 ^ 31) = true ∧
    (∀ j, j < 2 ^ 31 → fails_at (failing_step (2 ^ 31)) (loop_start [] false "INSERT")
      (List.replicate (2 ^ 31 + 1) []) j = false) ∧
    (bindnexec (failing_step (2 ^ 31)) true [] "INSERT" (List.replicate (2 ^ 31 + 1) [])
      false none none).ret = -2147483648 ∧
    (-2147483648 : Int) ≠ ((2 ^ 31 : Nat) : Int) := by
  have h0c : (loop_start [] false "INSERT").count .step = 0 := by decide
  have hfail : fails_at (failing_step (2 ^ 31)) (loop_start [] false "INSERT")
      (List.replicate (2 ^ 31 + 1) []) (2 ^ 31) = true := by
    rw [failing_step_fails_at (2 ^ 31) (2 ^ 31 + 1) (2 ^ 31) _ h0c (Nat.lt_succ_self _)]
    exact decide_eq_true rfl
  have hmin : ∀ j, j < 2 ^ 31 → fails_at (failing_step (2 ^ 31)) (loop_start [] false "INSERT")
      (List.replicate (2 ^ 31 + 1) []) j = false := by
    intro j hj
    rw [failing_step_fails_at (2 ^ 31) (2 ^ 31 + 1) j _ h0c (Nat.lt_succ_of_lt hj)]
    exact decide_eq_false (Nat.ne_of_lt hj)
  obtain ⟨rc, _, _, heq⟩ := bindnexec_failed_eq (failing_step (2 ^ 31)) [] "INSERT"
    (List.replicate (2 ^ 31 + 1) []) false none none (2 ^ 31)
    (fun hb => Bool.noConfusion hb) rfl hfail hmin
  have hconv : size_t_to_int (2 ^ 31) = -2147483648 := by
    unfold size_t_to_int
    norm_num
  refine ⟨hfail, hmin, ?_, by norm_num⟩
  rw [heq]
  exact hconv

/-- C1, amended: on a live connection, past a successful BEGIN (when `bTran` is
set) and a successful prepare, if row `i` is the first row whose reset succeeds
and whose step answers neither SQLITE_OK nor SQLITE_DONE, then `bindnexec`
leaves through `return i`: the value returned is the index converted to `int`,
which is `i` itself whenever `i < 2^31`; and, whatever `i`, exactly the `i + 1`
rows up to `i` are reset, no more than these are stepped and bound, the rows
after `i` have no influence on the call, COMMIT is not issued, and ROLLBACK is
issued once when `bTran` is set and not at all otherwise. -/
theorem bindnexec_first_failing_row (E : Engine) (h : History) (sql : String)
    (rows : List Row) (bTran : Bool) (errid : Option Int) (err : Option String) (i : Nat)
    (hbegin : bTran = true → (E.exec (h ++ [.total_changes]) "BEGIN").1 = SQLITE_OK)
    (hprep : E.prepare (prepare_point h bTran) sql = SQLITE_OK)
    (hfail : fails_at E (loop_start h bTran sql) rows i = true)
    (hmin : ∀ j, j < i → fails_at E (loop_start h bTran sql) rows j = false) :
    (bindnexec E true h sql rows bTran errid err).ret = size_t_to_int i ∧
    (i < 2 ^ 31 → (bindnexec E true h sql rows bTran errid err).ret = (i : Int)) ∧
    (bindnexec E true h sql rows bTran errid err).exit = .row_failed ∧
    (bindnexec E true h sql rows bTran errid err).hist.count .reset = h.count .reset + (i + 1) ∧
    (bindnexec E true h sql rows bTran errid err).hist.count .step ≤ h.count .step + (i + 1) ∧
    (bindnexec E true h sql rows bTran errid err).hist.countP Call.isBind
      ≤ h.countP Call.isBind + ((rows.take (i + 1)).map List.length).sum ∧
    bindnexec E true h sql rows bTran errid err
      = bindnexec E true h sql (rows.take (i + 1)) bTran errid err ∧
    (bindnexec E true h sql rows bTran errid err).hist.count (.exec "COMMIT")
      = h.count (.exec "COMMIT") ∧
    (bindnexec E true h sql rows bTran errid err).hist.count (.exec "ROLLBACK")
      = h.count (.exec "ROLLBACK") + (if bTran then 1 else 0) := by
  obtain ⟨rc, hst, hbad, heq⟩ :=
    bindnexec_failed_eq E h sql rows bTran errid err i hbegin hprep hfail hmin
  obtain ⟨s, t1, t2, eh, ms, m1, r1, s1, b1, m2, c2⟩ :=
    bindnexec_failed_hist E h sql rows bTran errid err i hbegin hprep hfail hmin
  have hne1 : ("BEGIN" : String) ≠ "COMMIT" := by decide
  have hne2 : ("BEGIN" : String) ≠ "ROLLBACK" := by decide
  have hne3 : ("ROLLBACK" : String) ≠ "COMMIT" := by decide
  have zs : ∀ c : Call, c ≠ .total_changes → c ≠ .exec "BEGIN" → c ≠ .prepare sql →
      s.count c = 0 := by
    intro c h1 h2 h3
    rw [List.count_eq_zero]
    intro hc
    rcases ms c hc with e | e | e
    · exact h1 e
    · exact h2 e
    · exact h3 e
  have zt1 : ∀ c : Call, c ≠ .reset → c ≠ .step → c.isBind = false → t1.count c = 0 := by
    intro c h1 h2 h3
    rw [List.count_eq_zero]
    intro hc
    rcases m1 c hc with e | e | e
    · exact h1 e
    · exact h2 e
    · rw [h3] at e; cases e
  have zt2 : ∀ c : Call, c ≠ .errmsg → c ≠ .exec "ROLLBACK" → c ≠ .free → t2.count c = 0 := by
    intro c h1 h2 h3
    rw [List.count_eq_zero]
    intro hc
    rcases m2 c hc with e | e | e
    · exact h1 e
    · exact h2 e
    · exact h3 e
  have bs : s.countP Call.isBind = 0 := by
    rw [List.countP_eq_zero]
    intro c hc
    rcases ms c hc with e | e | e <;> simp [e, Call.isBind]
  have bt2 : t2.countP Call.isBind = 0 := by
    rw [List.countP_eq_zero]
    intro c hc
    rcases m2 c hc with e | e | e <;> simp [e, Call.isBind]
  refine ⟨by rw [heq], ?_, by rw [heq], ?_, ?_, ?_, ?_, ?_, ?_⟩
  · intro hi
    rw [heq]
    exact size_t_to_int_of_lt i hi
  · rw [eh]
    simp only [List.count_append, r1]
    rw [zs _ (by simp) (by simp) (by simp), zt2 _ (by simp) (by simp) (by simp)]
    omega
  · rw [eh]
    simp only [List.count_append]
    rw [zs _ (by simp) (by simp) (by simp), zt2 _ (by simp) (by simp) (by simp)]
    omega
  · rw [eh]
    simp only [List.countP_append, bs, bt2]
    omega
  · have hlt := fails_at_lt E _ rows i hfail
    have hfail2 : fails_at E (loop_start h bTran sql) (rows.take (i + 1)) i = true := by
      rw [fails_at_take E _ rows (i + 1) i (Nat.lt_succ_self i)]; exact hfail
    have hmin2 : ∀ j, j < i → fails_at E (loop_start h bTran sql) (rows.take (i + 1)) j = false := by
      intro j hj
      rw [fails_at_take E _ rows (i + 1) j (by omega)]; exact hmin j hj
    obtain ⟨rc2, hst2, _, heq2⟩ :=
      bindnexec_failed_eq E h sql (rows.take (i + 1)) bTran errid err i hbegin hprep hfail2 hmin2
    rw [row_status_take E _ rows (i + 1) i (Nat.lt_succ_self i), hst] at hst2
    cases hst2
    rw [heq, heq2, List.take_take]
    simp
  · rw [eh]
    simp only [List.count_append]
    rw [zs _ (by simp) (by simp [hne1.symm]) (by simp),
      zt1 (.exec "COMMIT") (by simp) (by simp) rfl,
      zt2 _ (by simp) (by simp [hne3.symm]) (by simp)]
    omega
  · rw [eh]
    simp only [List.count_append, c2]
    rw [zs _ (by simp) (by simp [hne2.symm]) (by simp),
      zt1 (.exec "ROLLBACK") (by simp) (by simp) rfl]
    omega

/-- A run of C1: rows [A, B, C] with B failing, inside a transaction: the call
returns 1, after one ROLLBACK and no COMMIT. -/
theorem bindnexec_first_failing_row_witness :
    fails_at (stub 0 [] [101, 1, 101]) (loop_start [] true "INSERT")
      [[.int 1], [.int 2], [.int 3]] 1 = true ∧
    (bindnexec (stub 0 [] [101, 1, 101]) true [] "INSERT" [[.int 1], [.int 2], [.int 3]]
      true none none).ret = 1 ∧
    (bindnexec (stub 0 [] [101, 1, 101]) true [] "INSERT" [[.int 1], [.int 2], [.int 3]]
      true none none).hist.count (.exec "COMMIT") = 0 ∧
    (bindnexec (stub 0 [] [101, 1, 101]) true [] "INSERT" [[.int 1], [.int 2], [.int 3]]
      true none none).hist.count (.exec "ROLLBACK") = 1 :=
  let w := bindnexec_first_failing_row (stub 0 [] [101, 1, 101]) [] "INSERT"
    [[.int 1], [.int 2], [.int 3]] true none none 1 (fun _ => rfl) rfl (by decide)
    (fun j hj => by interval_cases j; decide)
  ⟨by decide, w.2.1 (by decide), w.2.2.2.2.2.2.2.1, w.2.2.2.2.2.2.2.2⟩

/-- The calls of a run of `bindnexec` in which no row fails: those up to the
loop, those of the rows, the finalize, the commit, the last read of the
counter. -/
theorem bindnexec_completed_hist (E : Engine) (h : History) (sql : String) (rows : List Row)
    (bTran : Bool) (errid : Option Int) (err : Option String)
    (hbegin : bTran = true → (E.exec (h ++ [.total_changes]) "BEGIN").1 = SQLITE_OK)
    (hprep : E.prepare (prepare_point h bTran) sql = SQLITE_OK)
    (hok : ∀ j, fails_at E (loop_start h bTran sql) rows j = false) :
    ∃ s t1 t3, bindnexec E true h sql rows bTran errid err
        = ⟨E.total_changes (h ++ s ++ t1 ++ .finalize :: t3) - E.total_changes h, .completed,
            errid, err, h ++ s ++ t1 ++ .finalize :: t3 ++ [.total_changes]⟩ ∧
      (∀ c ∈ s, c = .total_changes ∨ c = .exec "BEGIN" ∨ c = .prepare sql) ∧
      (∀ c ∈ t1, c = .reset ∨ c = .step ∨ c.isBind = true) ∧
      t1.count .reset = rows.length ∧
      (∀ c ∈ t3, c = .exec "COMMIT" ∨ c = .free) ∧
      t3.count (.exec "COMMIT") = (if bTran then 1 else 0) := by
  obtain ⟨s, es, ms⟩ := loop_start_eq h bTran sql
  obtain ⟨t1, e1, m1, r1, _, _⟩ := rows_run_hist E rows (loop_start h bTran sql)
  have hloop := loop_completed E true bTran errid err rows 0 (loop_start h bTran sql) hok
  have heq := bindnexec_live E h sql rows bTran errid err hbegin hprep
  rw [hloop] at heq
  simp only at heq
  rw [e1, es] at heq
  cases bTran with
  | false =>
    refine ⟨s, t1, [], ?_, ms, m1, r1, by simp, by simp⟩
    rw [heq]; simp
  | true =>
    simp only [if_true, commit_transaction] at heq
    rcases exec_sql_hist E (h ++ s ++ t1 ++ [.finalize]) "COMMIT" none none with e | e
    · refine ⟨s, t1, [.exec "COMMIT"], ?_, ms, m1, r1, by simp, by simp⟩
      rw [e] at heq
      rw [heq]; simp
    · refine ⟨s, t1, [.exec "COMMIT", .free], ?_, ms, m1, r1, by simp, by simp⟩
      rw [e] at heq
      rw [heq]; simp

/-- C3: on a live connection, past a successful BEGIN (when `bTran` is set) and
a successful prepare, if no attempted step of the batch (empty or not) answers
anything but SQLITE_OK or SQLITE_DONE, then `bindnexec` runs to its end: every
row is reset, the statement is finalized once, COMMIT is issued once when
`bTran` is set and not at all otherwise, ROLLBACK is not issued, and the value
returned is the total-changes counter read last, after all these calls, minus
the counter read first, before BEGIN. -/
theorem bindnexec_all_rows_succeed (E : Engine) (h : History) (sql : String)
    (rows : List Row) (bTran : Bool) (errid : Option Int) (err : Option String)
    (hbegin : bTran = true → (E.exec (h ++ [.total_changes]) "BEGIN").1 = SQLITE_OK)
    (hprep : E.prepare (prepare_point h bTran) sql = SQLITE_OK)
    (hok : ∀ j, fails_at E (loop_start h bTran sql) rows j = false) :
    (bindnexec E true h sql rows bTran errid err).exit = .completed ∧
    (bindnexec E true h sql rows bTran errid err).hist.count .reset
      = h.count .reset + rows.length ∧
    (bindnexec E true h sql rows bTran errid err).hist.count .finalize
      = h.count .finalize + 1 ∧
    (bindnexec E true h sql rows bTran errid err).hist.count (.exec "COMMIT")
      = h.count (.exec "COMMIT") + (if bTran then 1 else 0) ∧
    (bindnexec E true h sql rows bTran errid err).hist.count (.exec "ROLLBACK")
      = h.count (.exec "ROLLBACK") ∧
    (bindnexec E true h sql rows bTran errid err).hist.getLast? = some .total_changes ∧
    (bindnexec E true h sql rows bTran errid err).ret
      = E.total_changes (bindnexec E true h sql rows bTran errid err).hist.dropLast
        - E.total_changes h := by
  obtain ⟨s, t1, t3, heq, ms, m1, r1, m3, c3⟩ :=
    bindnexec_completed_hist E h sql rows bTran errid err hbegin hprep hok
  have hne1 : ("BEGIN" : String) ≠ "COMMIT" := by decide
  have hne2 : ("BEGIN" : String) ≠ "ROLLBACK" := by decide
  have hne3 : ("COMMIT" : String) ≠ "ROLLBACK" := by decide
  have zs : ∀ c : Call, c ≠ .total_changes → c ≠ .exec "BEGIN" → c ≠ .prepare sql →
      s.count c = 0 := by
    intro c h1 h2 h3
    rw [List.count_eq_zero]
    intro hc
    rcases ms c hc with e | e | e
    · exact h1 e
    · exact h2 e
    · exact h3 e
  have zt1 : ∀ c : Call, c ≠ .reset → c ≠ .step → c.isBind = false → t1.count c = 0 := by
    intro c h1 h2 h3
    rw [List.count_eq_zero]
    intro hc
    rcases m1 c hc with e | e | e
    · exact h1 e
    · exact h2 e
    · rw [h3] at e; cases e
  have zt3 : ∀ c : Call, c ≠ .exec "COMMIT" → c ≠ .free → t3.count c = 0 := by
    intro c h1 h2
    rw [List.count_eq_zero]
    intro hc
    rcases m3 c hc with e | e
    · exact h1 e
    · exact h2 e
  rw [heq]
  refine ⟨rfl, ?_, ?_, ?_, ?_, ?_, ?_⟩
  · simp only [List.count_append, List.count_cons, r1]
    rw [zs _ (by simp) (by simp) (by simp), zt3 _ (by simp) (by simp)]
    simp
  · simp only [List.count_append, List.count_cons]
    rw [zs _ (by simp) (by simp) (by simp), zt1 .finalize (by simp) (by simp) rfl,
      zt3 _ (by simp) (by simp)]
    simp
  · simp only [List.count_append, List.count_cons, c3]
    rw [zs _ (by simp) (by simp [hne1.symm]) (by simp),
      zt1 (.exec "COMMIT") (by simp) (by simp) rfl]
    simp
  · simp only [List.count_append, List.count_cons]
    rw [zs _ (by simp) (by simp [hne2.symm]) (by simp),
      zt1 (.exec "ROLLBACK") (by simp) (by simp) rfl,
      zt3 _ (by simp [hne3.symm]) (by simp)]
    simp
  · exact List.getLast?_concat _
  · simp only [List.dropLast_concat]

/-- A run of C3: two rows that both step to SQLITE_DONE, inside a transaction,
on an engine whose counter goes up by one per step. -/
theorem bindnexec_all_rows_succeed_witness :
    (bindnexec (stub 0 [] []) true [] "INSERT" [[.int 1], [.int 2]] true none none).exit
      = .completed ∧
    (bindnexec (stub 0 [] []) true [] "INSERT" [[.int 1], [.int 2]] true none none).ret = 2 :=
  let w := bindnexec_all_rows_succeed (stub 0 [] []) [] "INSERT" [[.int 1], [.int 2]]
    true none none (fun _ => rfl) rfl
    (fun j => by
      rcases Nat.lt_or_ge j 2 with hj | hj
      · interval_cases j <;> decide
      · have hnone : ([[Value.int 1], [Value.int 2]] : List Row)[j]? = none := by
          simp; omega
        simp [fails_at, row_status, hnone, step_fails])
  ⟨w.1, w.2.2.2.2.2.2.trans (by decide)⟩

/-- C4: on a connection whose handle is null, `bindnexec` returns -1 and makes
no call at all (the history is unchanged: no read of the counter, no BEGIN,
prepare, reset, bind or step), and leaves `errid` and `err` as they were,
whatever the SQL text, the rows and the transaction flag. -/
theorem bindnexec_null_connection (E : Engine) (h : History) (sql : String) (rows : List Row)
    (bTran : Bool) (errid : Option Int) (err : Option String) :
    bindnexec E false h sql rows bTran errid err = ⟨-1, .no_connection, errid, err, h⟩ := by
  simp [bindnexec]

/-- C5 fails on the row-failure return of `bindnexec`: the statement prepares,
the step of the only row answers SQLITE_ERROR, and the call returns 0 without
any `sqlite3_finalize`. -/
theorem bindnexec_row_failure_leaks_statement :
    (bindnexec (stub 0 [] [1]) true [] "INSERT" [[.int 7]] false none none).exit = .row_failed ∧
    (bindnexec (stub 0 [] [1]) true [] "INSERT" [[.int 7]] false none none).ret = 0 ∧
    (bindnexec (stub 0 [] [1]) true [] "INSERT" [[.int 7]] false none none).hist
      = [.total_changes, .prepare "INSERT", .reset, .bind_int 1 7, .step] ∧
    (bindnexec (stub 0 [] [1]) true [] "INSERT" [[.int 7]] false none none).hist.count .finalize
      = 0 := by
  decide

/-! ## Lemmas: the read path -/

theorem get_single_hist (E : Engine) (h : History) (k : Kind) (col : Nat) :
    (get_single E h k col).2 = h ++ column_calls k col := by
  cases k
  · rfl
  · rfl
  · rfl
  · simp only [get_single, sqlite3_column_text, column_calls]
    split <;> rfl
  · simp only [get_single, sqlite3_column_bytes, sqlite3_column_blob, column_calls]
    split <;> simp

theorem get_singles_hist (E : Engine) (ARGS : List Kind) : ∀ (col : Nat) (h : History),
    (get_singles E ARGS col h).2
      = h ++ (ARGS.enumFrom col).flatMap (fun p => column_calls p.2 p.1) := by
  induction ARGS with
  | nil => intro col h; simp [get_singles]
  | cons k ks ih =>
    intro col h
    simp only [get_singles, List.enumFrom_cons, List.flatMap_cons]
    rw [ih, get_single_hist]
    simp

theorem get_singles_length (E : Engine) (ARGS : List Kind) : ∀ (col : Nat) (h : History),
    (get_singles E ARGS col h).1.length = ARGS.length := by
  induction ARGS with
  | nil => intro col h; simp [get_singles]
  | cons k ks ih =>
    intro col h
    simp only [get_singles, List.length_cons]
    rw [ih]

theorem get_singles_field (E : Engine) (ARGS : List Kind) : ∀ (col : Nat) (h : History) (k : Nat)
    (hk : k < ARGS.length),
    (get_singles E ARGS col h).1[k]?
      = some (get_single E
          (h ++ ((ARGS.take k).enumFrom col).flatMap (fun p => column_calls p.2 p.1))
          ARGS[k] (col + k)).1 := by
  induction ARGS with
  | nil => intro col h k hk; simp at hk
  | cons a as ih =>
    intro col h k hk
    cases k with
    | zero => simp [get_singles]
    | succ k =>
      have hk2 : k < as.length := by simpa using hk
      simp only [get_singles, List.getElem?_cons_succ, List.take_succ_cons, List.enumFrom_cons,
        List.flatMap_cons, List.getElem_cons_succ]
      rw [ih (col + 1) _ k hk2, get_single_hist]
      have harith : col + 1 + k = col + (k + 1) := by omega
      rw [harith, List.append_assoc]

theorem column_calls_ordinal (kind : Kind) (k : Nat) (c : Call) (hc : c ∈ column_calls kind k) :
    c.ordinal = some k := by
  cases kind <;> simp [column_calls] at hc <;> rcases hc with rfl | rfl <;> rfl

theorem set_single_call_ordinal (i : Nat) (v : Value) : (set_single_call i v).ordinal = some i := by
  cases v <;> rfl

theorem fetch_point_shift (ARGS : List Kind) (h : History) : ∀ (j : Nat),
    fetch_point ARGS h (j + 1) = fetch_point ARGS (h ++ .step :: row_reads ARGS) j := by
  intro j
  induction j with
  | zero => rfl
  | succ j ih =>
    show fetch_point ARGS h (j + 1) ++ .step :: row_reads ARGS = _
    rw [ih]
    rfl

/-- The loop of `bindnquery` on an engine that answers `SQLITE_ROW` to the
first `n` steps and something else to the next. -/
theorem bindnquery_loop_rows (E : Engine) (ARGS : List Kind) : ∀ (n fuel : Nat) (h : History)
    (answer : List Row),
    (∀ j, j < n → E.step (fetch_point ARGS h j) = SQLITE_ROW) →
    E.step (fetch_point ARGS h n) ≠ SQLITE_ROW → n < fuel →
    bindnquery_loop E ARGS fuel h answer
      = some (answer ++ (List.range n).map
          (fun j => (get_singles E ARGS 0 (fetch_point ARGS h j ++ [.step])).1),
        fetch_point ARGS h n ++ [.step]) := by
  intro n
  induction n with
  | zero =>
    intro fuel h answer _ hend hfuel
    obtain ⟨f, rfl⟩ : ∃ f, fuel = f + 1 := ⟨fuel - 1, by omega⟩
    have hend2 : E.step h ≠ SQLITE_ROW := hend
    simp [bindnquery_loop, sqlite3_step, hend2, fetch_point]
  | succ n ih =>
    intro fuel h answer hrows hend hfuel
    obtain ⟨f, rfl⟩ : ∃ f, fuel = f + 1 := ⟨fuel - 1, by omega⟩
    have h0 : E.step h = SQLITE_ROW := hrows 0 (Nat.succ_pos n)
    have hnext : (get_singles E ARGS 0 (h ++ [.step])).2 = h ++ .step :: row_reads ARGS := by
      rw [get_singles_hist]; simp [row_reads, List.enum]
    have hrows2 : ∀ j, j < n → E.step (fetch_point ARGS (h ++ .step :: row_reads ARGS) j)
        = SQLITE_ROW := by
      intro j hj
      rw [← fetch_point_shift]
      exact hrows (j + 1) (Nat.succ_lt_succ hj)
    have hend2 : E.step (fetch_point ARGS (h ++ .step :: row_reads ARGS) n) ≠ SQLITE_ROW := by
      rw [← fetch_point_shift]; exact hend
    have hrec := ih f (h ++ .step :: row_reads ARGS)
      (answer ++ [(get_singles E ARGS 0 (h ++ [.step])).1]) hrows2 hend2 (by omega)
    rw [bindnquery_loop]
    simp only [sqlite3_step, h0, if_true]
    rw [hnext, hrec, List.range_succ_eq_map, fetch_point_shift]
    simp only [List.map_cons, List.map_map, List.append_assoc, List.singleton_append]
    have hmap : List.map
          (fun j => (get_singles E ARGS 0
            (fetch_point ARGS (h ++ .step :: row_reads ARGS) j ++ [.step])).1) (List.range n)
        = List.map ((fun j => (get_singles E ARGS 0 (fetch_point ARGS h j ++ [.step])).1)
            ∘ Nat.succ) (List.range n) := by
      apply List.map_congr_left
      intro j _
      simp only [Function.comp, Nat.succ_eq_add_one]
      rw [fetch_point_shift]
    rw [hmap]
    rfl

/-- The run of `bindnquery` on a statement that prepares and yields `n` rows:
the answer holds the `n` extracted tuples in order, and the calls are those up
to the first step, then for each row its step and its column reads, then the
step that ends the loop and the finalize. -/
theorem bindnquery_rows (E : Engine) (ARGS : List Kind) (h : History) (query : String)
    (bindvals : List Bytes) (n fuel : Nat)
    (hprep : E.prepare_v2 h query = SQLITE_OK)
    (hrows : ∀ j, j < n →
      E.step (fetch_point ARGS (bound_point E h query bindvals) j) = SQLITE_ROW)
    (hend : E.step (fetch_point ARGS (bound_point E h query bindvals) n) ≠ SQLITE_ROW)
    (hfuel : n < fuel) :
    bindnquery E ARGS fuel h query bindvals
      = some (.ok ((List.range n).map (fun j =>
            (get_singles E ARGS 0 (fetch_point ARGS (bound_point E h query bindvals) j
              ++ [.step])).1)),
          fetch_point ARGS (bound_point E h query bindvals) n ++ [.step, .finalize]) := by
  have hloop := bindnquery_loop_rows E ARGS n fuel (bound_point E h query bindvals) []
    hrows hend hfuel
  unfold bindnquery
  simp only [PPSM.ctor, sqlite3_prepare_v2, hprep, ne_eq, not_true_eq_false, if_false]
  unfold bound_point at hloop
  rw [hloop]
  simp [PPSM.dtor, sqlite3_finalize, bound_point]

/-- C6: (1) for every tuple `t` of arity N, `set_singles` makes exactly N bind
calls, in increasing order, call `k` (from 0) being the bind of field `k` at
parameter ordinal `k + 1`, so that the ordinals used are 1..N in this order;
(2) the extraction of a tuple of shape `ARGS` of arity N makes, for `k` from 0
to N-1 in this order, the column reads of `get_single` of the kind of field `k`
at column ordinal `k`, and field `k` of the tuple is the value of that read;
(3) `bindnquery`, on a statement that prepares and yields `n` rows, makes for
each row, after its step, exactly these reads, and answers with the `n` tuples
so extracted, in order. -/
theorem bind_and_column_ordinals :
    (∀ (E : Engine) (t : Row) (h : History),
      ∃ calls, set_singles E 0 t h = h ++ calls ∧ calls.length = t.length ∧
        (∀ (k : Nat) (hk : k < t.length), calls[k]? = some (set_single_call (k + 1) t[k])) ∧
        calls.map Call.ordinal = (List.range t.length).map (fun k => some (k + 1))) ∧
    (∀ (E : Engine) (ARGS : List Kind) (h : History),
      (get_singles E ARGS 0 h).2 = h ++ ARGS.enum.flatMap (fun p => column_calls p.2 p.1) ∧
      (get_singles E ARGS 0 h).1.length = ARGS.length ∧
      (∀ (k : Nat) (hk : k < ARGS.length),
        (get_singles E ARGS 0 h).1[k]?
          = some (get_single E
              (h ++ (ARGS.take k).enum.flatMap (fun p => column_calls p.2 p.1)) ARGS[k] k).1) ∧
      (∀ (kind : Kind) (k : Nat) (c : Call), c ∈ column_calls kind k → c.ordinal = some k)) ∧
    (∀ (E : Engine) (ARGS : List Kind) (h : History) (query : String) (bindvals : List Bytes)
      (n fuel : Nat),
      E.prepare_v2 h query = SQLITE_OK →
      (∀ j, j < n → E.step (fetch_point ARGS (bound_point E h query bindvals) j) = SQLITE_ROW) →
      E.step (fetch_point ARGS (bound_point E h query bindvals) n) ≠ SQLITE_ROW →
      n < fuel →
      ∃ answer, bindnquery E ARGS fuel h query bindvals
          = some (.ok answer,
              fetch_point ARGS (bound_point E h query bindvals) n ++ [.step, .finalize]) ∧
        answer.length = n ∧
        (∀ j, j < n → answer[j]?
          = some (get_singles E ARGS 0
              (fetch_point ARGS (bound_point E h query bindvals) j ++ [.step])).1) ∧
        (∀ j, fetch_point ARGS (bound_point E h query bindvals) (j + 1)
          = fetch_point ARGS (bound_point E h query bindvals) j ++ [.step]
            ++ ARGS.enum.flatMap (fun p => column_calls p.2 p.1))) := by
  refine ⟨?_, ?_, ?_⟩
  · intro E t h
    refine ⟨(t.enumFrom 0).map (fun p => set_single_call (p.1 + 1) p.2), set_singles_eq E t 0 h,
      by simp, ?_, ?_⟩
    · intro k hk
      rw [List.getElem?_map, List.getElem?_enumFrom, List.getElem?_eq_getElem hk]
      simp
    · apply List.ext_getElem?
      intro k
      simp only [List.getElem?_map, List.getElem?_enumFrom]
      by_cases hk : k < t.length
      · rw [List.getElem?_eq_getElem hk, List.getElem?_range hk]
        simp [set_single_call_ordinal]
      · have h1 : t[k]? = none := by simp; omega
        have h2 : (List.range t.length)[k]? = none := by simp; omega
        simp [h1, h2]
  · intro E ARGS h
    refine ⟨get_singles_hist E ARGS 0 h, get_singles_length E ARGS 0 h, ?_, column_calls_ordinal⟩
    intro k hk
    have := get_singles_field E ARGS 0 h k hk
    simpa [List.enum] using this
  · intro E ARGS h query bindvals n fuel hprep hrows hend hfuel
    refine ⟨_, bindnquery_rows E ARGS h query bindvals n fuel hprep hrows hend hfuel,
      by simp, ?_, ?_⟩
    · intro j hj
      rw [List.getElem?_map, List.getElem?_range hj]
      rfl
    · intro j
      simp [fetch_point, row_reads]

/-- A run of C6: a two-row result of shape (int, blob) on the test engine. -/
theorem bind_and_column_ordinals_witness :
    ∃ answer, bindnquery (stub 0 [] [100, 100, 101]) [.int, .blob] 3 [] "SELECT" []
        = some (.ok answer,
            [.prepare_v2 "SELECT", .step, .column_int 0, .column_bytes 1, .column_blob 1,
              .step, .column_int 0, .column_bytes 1, .column_blob 1, .step, .finalize]) ∧
      answer.length = 2 :=
  let ⟨answer, w1, w2, _, _⟩ := bind_and_column_ordinals.2.2 (stub 0 [] [100, 100, 101])
    [.int, .blob] [] "SELECT" [] 2 3 rfl
    (fun j hj => by interval_cases j <;> decide) (by decide) (by decide)
  ⟨answer, w1, w2⟩

/-! ## Lemmas: `PPSM` and the three queries -/

theorem bindvals_eq (E : Engine) (vals : List Bytes) : ∀ (pos : Nat) (h : History),
    PPSM.bindvals E pos vals h = h ++ (vals.enumFrom pos).map
      (fun p => Call.bind_text (p.1 + 1) (p.2 ++ [0]) p.2.length SQLITE_TRANSIENT) := by
  induction vals with
  | nil => intro pos h; simp [PPSM.bindvals]
  | cons v vs ih =>
    intro pos h
    simp [PPSM.bindvals, sqlite3_bind, ih, List.enumFrom]

/-- A call that is neither the prepare nor a bind occurs as often at the first
step of a query as before the query. -/
theorem bound_point_count (E : Engine) (h : History) (query : String) (bindvals : List Bytes)
    (c : Call) (h1 : c ≠ .prepare_v2 query) (h2 : c.isBind = false) :
    (bound_point E h query bindvals).count c = h.count c := by
  unfold bound_point
  rw [bindvals_eq]
  simp only [List.count_append]
  have z1 : List.count c [Call.prepare_v2 query] = 0 := by
    rw [List.count_eq_zero]; simpa using h1
  have z2 : List.count c ((bindvals.enumFrom 0).map
      (fun p => Call.bind_text (p.1 + 1) (p.2 ++ [0]) p.2.length SQLITE_TRANSIENT)) = 0 := by
    rw [List.count_eq_zero]
    intro hc
    simp only [List.mem_map] at hc
    obtain ⟨p, _, rfl⟩ := hc
    simp [Call.isBind] at h2
  omega

theorem retry_point_shift (hb : History) : ∀ (j : Nat),
    retry_point hb (j + 1) = retry_point (hb ++ [.step, .sched_yield]) j := by
  intro j
  induction j with
  | zero => rfl
  | succ j ih =>
    show retry_point hb (j + 1) ++ [.step, .sched_yield] = _
    rw [ih]
    rfl

theorem retry_point_eq (hb : History) : ∀ (j : Nat),
    ∃ t, retry_point hb j = hb ++ t ∧ t.count .step = j ∧ t.count .sched_yield = j ∧
      t.count .finalize = 0 := by
  intro j
  induction j with
  | zero => exact ⟨[], by simp [retry_point]⟩
  | succ j ih =>
    obtain ⟨t, e, c1, c2, c3⟩ := ih
    refine ⟨t ++ [.step, .sched_yield], ?_, ?_, ?_, ?_⟩
    · simp [retry_point, e]
    · simp [List.count_append, List.count_cons, c1]
    · simp [List.count_append, List.count_cons, c2]
    · simp [List.count_append, List.count_cons, c3]

theorem row_reads_count (ARGS : List Kind) (c : Call) (hc : c.isColumn = false) :
    (row_reads ARGS).count c = 0 := by
  rw [List.count_eq_zero]
  intro hmem
  simp only [row_reads, List.mem_flatMap] at hmem
  obtain ⟨p, _, hp⟩ := hmem
  have : c.isColumn = true := by
    rcases p with ⟨k, kind⟩
    cases kind <;> simp [column_calls] at hp <;> rcases hp with rfl | rfl <;> rfl
  rw [hc] at this
  cases this

theorem fetch_point_eq (ARGS : List Kind) (hb : History) : ∀ (j : Nat),
    ∃ t, fetch_point ARGS hb j = hb ++ t ∧ t.count .step = j ∧ t.count .finalize = 0 := by
  intro j
  induction j with
  | zero => exact ⟨[], by simp [fetch_point]⟩
  | succ j ih =>
    obtain ⟨t, e, c1, c2⟩ := ih
    refine ⟨t ++ .step :: row_reads ARGS, ?_, ?_, ?_⟩
    · simp [fetch_point, e]
    · simp [List.count_append, List.count_cons, c1, row_reads_count ARGS .step rfl]
    · simp [List.count_append, List.count_cons, c2, row_reads_count ARGS .finalize rfl]

/-- The retry loop of `query_nothing` on an engine that answers `SQLITE_BUSY`
to the `m` steps after the first and something else to the next. -/
theorem query_nothing_retry_busy (E : Engine) : ∀ (m fuel : Nat) (hb : History),
    (∀ j, j < m → E.step (retry_point hb (j + 1)) = SQLITE_BUSY) →
    E.step (retry_point hb (m + 1)) ≠ SQLITE_BUSY → m < fuel →
    query_nothing_retry E fuel (hb ++ [.step]) = some (retry_point hb (m + 1) ++ [.step]) := by
  intro m
  induction m with
  | zero =>
    intro fuel hb _ hend hfuel
    obtain ⟨f, rfl⟩ : ∃ f, fuel = f + 1 := ⟨fuel - 1, by omega⟩
    have hend2 : E.step (hb ++ [.step, .sched_yield]) ≠ SQLITE_BUSY := hend
    simp [query_nothing_retry, sqlite3_step, sched_yield, hend2, retry_point]
  | succ m ih =>
    intro fuel hb hbusy hend hfuel
    obtain ⟨f, rfl⟩ : ∃ f, fuel = f + 1 := ⟨fuel - 1, by omega⟩
    have h0 : E.step (hb ++ [.step, .sched_yield]) = SQLITE_BUSY := hbusy 0 (Nat.succ_pos m)
    have hbusy2 : ∀ j, j < m → E.step (retry_point (hb ++ [.step, .sched_yield]) (j + 1))
        = SQLITE_BUSY := by
      intro j hj
      rw [← retry_point_shift]
      exact hbusy (j + 1) (Nat.succ_lt_succ hj)
    have hend2 : E.step (retry_point (hb ++ [.step, .sched_yield]) (m + 1)) ≠ SQLITE_BUSY := by
      rw [← retry_point_shift]; exact hend
    have hrec := ih f (hb ++ [.step, .sched_yield]) hbusy2 hend2 (by omega)
    rw [query_nothing_retry]
    simp only [sqlite3_step, sched_yield, List.append_assoc, List.singleton_append, h0, if_true]
    rw [retry_point_shift]
    simpa using hrec

/-- The run of `query_nothing` on a statement that prepares and answers
`SQLITE_BUSY` to its first `k` steps and something else to the next. -/
theorem query_nothing_run (E : Engine) (h : History) (query : String) (bindvals : List Bytes)
    (k fuel : Nat)
    (hprep : E.prepare_v2 h query = SQLITE_OK)
    (hbusy : ∀ j, j < k →
      E.step (retry_point (bound_point E h query bindvals) j) = SQLITE_BUSY)
    (hend : E.step (retry_point (bound_point E h query bindvals) k) ≠ SQLITE_BUSY)
    (hfuel : k ≤ fuel) :
    query_nothing E fuel h query bindvals
      = some (.ok (), retry_point (bound_point E h query bindvals) k ++ [.step, .finalize]) := by
  unfold query_nothing
  simp only [PPSM.ctor, sqlite3_prepare_v2, hprep, ne_eq, not_true_eq_false, if_false,
    sqlite3_step]
  cases k with
  | zero =>
    have hend2 : E.step (PPSM.bindvals E 0 bindvals (h ++ [.prepare_v2 query])) ≠ SQLITE_BUSY :=
      hend
    simp [hend2, PPSM.dtor, sqlite3_finalize, retry_point, bound_point]
  | succ m =>
    have h0 : E.step (PPSM.bindvals E 0 bindvals (h ++ [.prepare_v2 query])) = SQLITE_BUSY :=
      hbusy 0 (Nat.succ_pos m)
    have hrec := query_nothing_retry_busy E m fuel (bound_point E h query bindvals)
      (fun j hj => hbusy (j + 1) (Nat.succ_lt_succ hj)) hend (by omega)
    unfold bound_point at hrec
    simp only [h0, if_true, hrec]
    simp [PPSM.dtor, sqlite3_finalize, bound_point]

theorem column_calls_count (k : Kind) (col : Nat) (c : Call) (hc : c.isColumn = false) :
    (column_calls k col).count c = 0 := by
  rw [List.count_eq_zero]
  intro hmem
  have : c.isColumn = true := by
    cases k <;> simp [column_calls] at hmem <;> rcases hmem with rfl | rfl <;> rfl
  rw [hc] at this
  cases this

/-- The run of `query_one` on a statement that prepares. -/
theorem query_one_run (E : Engine) (QType : Kind) (h : History) (query : String)
    (bindvals : List Bytes) (hprep : E.prepare_v2 h query = SQLITE_OK) :
    query_one E QType h query bindvals
      = if E.step (bound_point E h query bindvals) ≠ SQLITE_ROW then
          (.error ("Query did not yield answer:" ++ query),
            bound_point E h query bindvals ++ [.step, .finalize])
        else
          (.ok (get_single E (bound_point E h query bindvals ++ [.step]) QType 0).1,
            bound_point E h query bindvals ++ [.step] ++ column_calls QType 0 ++ [.finalize]) := by
  unfold query_one
  simp only [PPSM.ctor, sqlite3_prepare_v2, hprep, ne_eq, not_true_eq_false, if_false,
    sqlite3_step, PPSM.dtor, sqlite3_finalize, bound_point]
  split
  · simp
  · rw [get_single_hist]

/-- C8 as stated fails: on a query that does not prepare, `query_one` steps
nothing, and the error that leaves the call is the message of the engine, not
the no-result error. -/
theorem query_one_unprepared :
    (query_one (stub 1 [] [100]) .int [] "SELECT" []).2 = [.prepare_v2 "SELECT", .errmsg] ∧
    (query_one (stub 1 [] [100]) .int [] "SELECT" []).2.count .step = 0 ∧
    (query_one (stub 1 [] [100]) .int [] "SELECT" []).1 = .error "engine message" ∧
    ("engine message" : String) ≠ "Query did not yield answer:" ++ "SELECT" := by
  refine ⟨by decide, by decide, rfl, by decide⟩

/-- C8, amended: for every query that prepares, and every bind list,
`query_one` steps the statement exactly once; if that step does not answer
SQLITE_ROW the call fails with the error "Query did not yield answer:"
followed by the query text; if it does, the call returns the scalar read from
column ordinal 0 right after that step, whatever the engine would answer to
further steps. -/
theorem query_one_prepared (E : Engine) (QType : Kind) (h : History) (query : String)
    (bindvals : List Bytes) (hprep : E.prepare_v2 h query = SQLITE_OK) :
    (query_one E QType h query bindvals).2.count .step = h.count .step + 1 ∧
    (E.step (bound_point E h query bindvals) ≠ SQLITE_ROW →
      (query_one E QType h query bindvals).1
        = .error ("Query did not yield answer:" ++ query)) ∧
    (E.step (bound_point E h query bindvals) = SQLITE_ROW →
      (query_one E QType h query bindvals).1
        = .ok (get_single E (bound_point E h query bindvals ++ [.step]) QType 0).1) := by
  have hrun := query_one_run E QType h query bindvals hprep
  have hc := bound_point_count E h query bindvals .step (by simp) rfl
  refine ⟨?_, ?_, ?_⟩
  · rw [hrun]
    split
    · simp [List.count_append, List.count_cons, hc]
    · simp [List.count_append, List.count_cons, hc, column_calls_count QType 0 .step rfl]
  · intro hne
    rw [hrun, if_pos hne]
  · intro hrow
    rw [hrun, if_neg (by simpa using hrow)]

/-- A run of the amended C8: the first of two rows is read, and only it. -/
theorem query_one_prepared_witness :
    (query_one (stub 0 [] [100, 100, 101]) .text [] "SELECT ?" [[104, 105]]).2.count .step = 1 ∧
    (query_one (stub 0 [] [100, 100, 101]) .text [] "SELECT ?" [[104, 105]]).1
      = .ok (.text [104, 105]) :=
  let w := query_one_prepared (stub 0 [] [100, 100, 101]) .text [] "SELECT ?" [[104, 105]] rfl
  ⟨w.1, (w.2.2 (by decide)).trans rfl⟩

/-- C9 as stated fails: on an engine whose steps would answer SQLITE_BUSY twice
and then SQLITE_DONE, but whose prepare fails, `query_nothing` makes no step
and lets the error of the prepare out. -/
theorem query_nothing_unprepared :
    (∀ j, j < 2 → (stub 1 [] [5, 5, 101]).step
        (retry_point (bound_point (stub 1 [] [5, 5, 101]) [] "UPDATE" []) j) = SQLITE_BUSY) ∧
    (stub 1 [] [5, 5, 101]).step
        (retry_point (bound_point (stub 1 [] [5, 5, 101]) [] "UPDATE" []) 2) = SQLITE_DONE ∧
    query_nothing (stub 1 [] [5, 5, 101]) 10 [] "UPDATE" []
      = some (.error "engine message", [.prepare_v2 "UPDATE", .errmsg]) := by
  refine ⟨fun j hj => by interval_cases j <;> decide, by decide, rfl⟩

/-- C9, amended: for every natural number `k` and every engine on which the
statement prepares and whose step answers SQLITE_BUSY exactly `k` times and
then another status, `query_nothing` returns (given fuel for `k` retries)
without an error, after exactly `k + 1` steps with exactly `k` yields, one
between each two steps; this for every `k`. -/
theorem query_nothing_busy_spin (E : Engine) (h : History) (query : String)
    (bindvals : List Bytes) (k fuel : Nat)
    (hprep : E.prepare_v2 h query = SQLITE_OK)
    (hbusy : ∀ j, j < k →
      E.step (retry_point (bound_point E h query bindvals) j) = SQLITE_BUSY)
    (hend : E.step (retry_point (bound_point E h query bindvals) k) ≠ SQLITE_BUSY)
    (hfuel : k ≤ fuel) :
    ∃ hist, query_nothing E fuel h query bindvals = some (.ok (), hist) ∧
      hist = bound_point E h query bindvals
        ++ (List.replicate k [Call.step, Call.sched_yield]).flatten ++ [.step, .finalize] ∧
      hist.count .step = h.count .step + (k + 1) ∧
      hist.count .sched_yield = h.count .sched_yield + k := by
  have hrun := query_nothing_run E h query bindvals k fuel hprep hbusy hend hfuel
  obtain ⟨t, et, c1, c2, _⟩ := retry_point_eq (bound_point E h query bindvals) k
  have hflat : ∀ (hb : History) (m : Nat),
      retry_point hb m = hb ++ (List.replicate m [Call.step, Call.sched_yield]).flatten := by
    intro hb m
    induction m with
    | zero => simp [retry_point]
    | succ m ih =>
      rw [retry_point, ih, List.replicate_succ', List.flatten_append]
      simp
  refine ⟨_, hrun, by rw [hflat], ?_, ?_⟩
  · rw [et]
    simp only [List.count_append, List.count_cons, c1,
      bound_point_count E h query bindvals .step (by simp) rfl]
    simp
    omega
  · rw [et]
    simp only [List.count_append, List.count_cons, c2,
      bound_point_count E h query bindvals .sched_yield (by simp) rfl]
    simp

/-- A run of the amended C9: two busy answers, then done. -/
theorem query_nothing_busy_spin_witness :
    ∃ hist, query_nothing (stub 0 [] [5, 5, 101]) 2 [] "UPDATE" [] = some (.ok (), hist) ∧
      hist = [.prepare_v2 "UPDATE", .step, .sched_yield, .step, .sched_yield, .step, .finalize] :=
  let ⟨hist, w1, w2, _, _⟩ := query_nothing_busy_spin (stub 0 [] [5, 5, 101]) [] "UPDATE" [] 2 2
    rfl (fun j hj => by interval_cases j <;> decide) (by decide) (by decide)
  ⟨hist, w1, w2.trans rfl⟩

/-- C10 as stated fails: the engine answers Row, Busy, Row, Done, so two Row
statuses precede the first Done; `bindnquery` stops at the Busy, after two
steps, and returns one tuple.  The same with Error in the place of Busy. -/
theorem bindnquery_stops_at_busy :
    rows_before_done [SQLITE_ROW, SQLITE_BUSY, SQLITE_ROW, SQLITE_DONE] = 2 ∧
    bindnquery (stub 0 [] [SQLITE_ROW, SQLITE_BUSY, SQLITE_ROW, SQLITE_DONE]) [.int] 10 []
        "SELECT" []
      = some (.ok [[.int 0]],
          [.prepare_v2 "SELECT", .step, .column_int 0, .step, .finalize]) ∧
    rows_before_done [SQLITE_ROW, SQLITE_ERROR, SQLITE_ROW, SQLITE_DONE] = 2 ∧
    bindnquery (stub 0 [] [SQLITE_ROW, SQLITE_ERROR, SQLITE_ROW, SQLITE_DONE]) [.int] 10 []
        "SELECT" []
      = some (.ok [[.int 0]],
          [.prepare_v2 "SELECT", .step, .column_int 0, .step, .finalize]) := by
  refine ⟨by decide, rfl, by decide, rfl⟩

/-- C10, amended: for every query that prepares and every engine that answers
SQLITE_ROW to the first `n` steps and another status (Done, Busy or Error
alike) to the next, `bindnquery` returns (given fuel for `n + 1` steps) after
exactly `n + 1` steps, with exactly the `n` tuples extracted after the `n` Row
statuses, in the order of the engine; so the length of the answer is the
number of Row statuses before the first status that is not Row. -/
theorem bindnquery_until_not_row (E : Engine) (ARGS : List Kind) (h : History)
    (query : String) (bindvals : List Bytes) (n fuel : Nat)
    (hprep : E.prepare_v2 h query = SQLITE_OK)
    (hrows : ∀ j, j < n →
      E.step (fetch_point ARGS (bound_point E h query bindvals) j) = SQLITE_ROW)
    (hend : E.step (fetch_point ARGS (bound_point E h query bindvals) n) ≠ SQLITE_ROW)
    (hfuel : n < fuel) :
    ∃ answer hist, bindnquery E ARGS fuel h query bindvals = some (.ok answer, hist) ∧
      answer.length = n ∧
      (∀ j, j < n → answer[j]?
        = some (get_singles E ARGS 0
            (fetch_point ARGS (bound_point E h query bindvals) j ++ [.step])).1) ∧
      hist.count .step = h.count .step + (n + 1) := by
  have hrun := bindnquery_rows E ARGS h query bindvals n fuel hprep hrows hend hfuel
  obtain ⟨t, et, c1, _⟩ := fetch_point_eq ARGS (bound_point E h query bindvals) n
  refine ⟨_, _, hrun, by simp, ?_, ?_⟩
  · intro j hj
    rw [List.getElem?_map, List.getElem?_range hj]
    rfl
  · rw [et]
    simp only [List.count_append, List.count_cons, c1,
      bound_point_count E h query bindvals .step (by simp) rfl]
    simp
    omega

/-- A run of the amended C10: Row, Busy, Row, Done gives one tuple. -/
theorem bindnquery_until_not_row_witness :
    ∃ answer hist, bindnquery (stub 0 [] [SQLITE_ROW, SQLITE_BUSY, SQLITE_ROW, SQLITE_DONE])
        [.int] 10 [] "SELECT" [] = some (.ok answer, hist) ∧ answer.length = 1 :=
  let ⟨answer, hist, w1, w2, _, _⟩ := bindnquery_until_not_row
    (stub 0 [] [SQLITE_ROW, SQLITE_BUSY, SQLITE_ROW, SQLITE_DONE]) [.int] [] "SELECT" [] 1 10
    rfl (fun j hj => by interval_cases j; decide) (by decide) (by decide)
  ⟨answer, hist, w1, w2⟩

/-! ## The scalar round trip -/

theorem c_string_terminated (v : Bytes) (hv : (0 : Byte) ∉ v) : c_string (v ++ [0]) = v := by
  unfold c_string
  induction v with
  | nil => simp [List.takeWhile]
  | cons b bs ih =>
    have hb : b ≠ 0 := fun e => hv (by simp [e])
    have hbs : (0 : Byte) ∉ bs := fun e => hv (by simp [e])
    simp [List.takeWhile_cons, hb, ih hbs]

/-- The round trip of C7 where it holds: on an engine that holds in column `c`
exactly what `set_single` handed over, `get_single` of the same kind returns
the value written, for every 32-bit and 64-bit integer, double and blob, and
for every text without a NUL byte. -/
theorem get_single_of_set_single (E : Engine) (h : History) (c i : Nat) (v : Value)
    (hstore : holds_bound E h c (set_single_call i v))
    (hnul : ∀ b, v = .text b → (0 : Byte) ∉ b) :
    (get_single E h v.kind c).1 = v := by
  cases v with
  | int x =>
    simp only [holds_bound, set_single_call] at hstore
    simp [Value.kind, get_single, sqlite3_column_int, hstore]
  | int64 x =>
    simp only [holds_bound, set_single_call] at hstore
    simp [Value.kind, get_single, sqlite3_column_int64, hstore]
  | double x =>
    simp only [holds_bound, set_single_call] at hstore
    simp [Value.kind, get_single, sqlite3_column_double, hstore]
  | text b =>
    simp only [holds_bound, set_single_call] at hstore
    have htake : (b ++ [0]).take b.length = b := by simp
    rw [htake] at hstore
    simp only [Value.kind, get_single, sqlite3_column_text, hstore]
    rw [c_string_terminated b (hnul b rfl)]
  | blob b =>
    simp only [holds_bound, set_single_call, List.take_length] at hstore
    obtain ⟨hlen, hptr | ⟨hz, hptr⟩⟩ := hstore
    · simp [Value.kind, get_single, sqlite3_column_bytes, sqlite3_column_blob, hlen, hptr, memcpy]
    · have hb : b = [] := List.length_eq_zero.mp hz
      simp [Value.kind, get_single, sqlite3_column_bytes, sqlite3_column_blob, hptr, hb]

/-- C7 fails for a text with a NUL byte inside: `set_single` hands the three
bytes `a`, NUL, `b` over with their exact length 3, the engine holds exactly
these three bytes (and the terminator), and `get_single` returns the one byte
`a`. -/
theorem get_single_text_stops_at_nul :
    set_single_call 1 (.text [97, 0, 98]) = .bind_text 1 [97, 0, 98, 0] 3 SQLITE_STATIC ∧
    holds_bound (stub 0 [] []) (set_single (stub 0 [] []) [] 1 (.text [97, 0, 98])).2 0
      (set_single_call 1 (.text [97, 0, 98])) ∧
    (get_single (stub 0 [] []) (set_single (stub 0 [] []) [] 1 (.text [97, 0, 98])).2 .text 0).1
      = .text [97] ∧
    Value.text [97] ≠ Value.text [97, 0, 98] := by
  refine ⟨rfl, ?_, by decide, by decide⟩
  show (stub 0 [] []).column_text _ 0 = some _
  decide

/-! ## The release of the statement -/

/-- The part of C5 that holds: once the statement is prepared, `query_one`
finalizes it exactly once, be it on the return or on the no-result throw; so do
`query_nothing` and `bindnquery` on the runs that end. -/
theorem ppsm_finalized_once (E : Engine) (h : History) (query : String)
    (bindvals : List Bytes) (hprep : E.prepare_v2 h query = SQLITE_OK) :
    (∀ QType, (query_one E QType h query bindvals).2.count .finalize = h.count .finalize + 1) ∧
    (∀ k fuel,
      (∀ j, j < k → E.step (retry_point (bound_point E h query bindvals) j) = SQLITE_BUSY) →
      E.step (retry_point (bound_point E h query bindvals) k) ≠ SQLITE_BUSY → k ≤ fuel →
      ∃ hist, query_nothing E fuel h query bindvals = some (.ok (), hist) ∧
        hist.count .finalize = h.count .finalize + 1) ∧
    (∀ ARGS n fuel,
      (∀ j, j < n → E.step (fetch_point ARGS (bound_point E h query bindvals) j) = SQLITE_ROW) →
      E.step (fetch_point ARGS (bound_point E h query bindvals) n) ≠ SQLITE_ROW → n < fuel →
      ∃ answer hist, bindnquery E ARGS fuel h query bindvals = some (.ok answer, hist) ∧
        hist.count .finalize = h.count .finalize + 1) := by
  have hc := bound_point_count E h query bindvals .finalize (by simp) rfl
  refine ⟨?_, ?_, ?_⟩
  · intro QType
    rw [query_one_run E QType h query bindvals hprep]
    split
    · simp [List.count_append, List.count_cons, hc]
    · simp [List.count_append, List.count_cons, hc, column_calls_count QType 0 .finalize rfl]
  · intro k fuel hbusy hend hfuel
    obtain ⟨t, et, _, _, c3⟩ := retry_point_eq (bound_point E h query bindvals) k
    refine ⟨_, query_nothing_run E h query bindvals k fuel hprep hbusy hend hfuel, ?_⟩
    rw [et]
    simp [List.count_append, List.count_cons, hc, c3]
  · intro ARGS n fuel hrows hend hfuel
    obtain ⟨t, et, _, c3⟩ := fetch_point_eq ARGS (bound_point E h query bindvals) n
    refine ⟨_, _, bindnquery_rows E ARGS h query bindvals n fuel hprep hrows hend hfuel, ?_⟩
    rw [et]
    simp [List.count_append, List.count_cons, hc, c3]

/-- The row-failure return of `bindnexec` never finalizes: whatever the engine,
a call that leaves at a failing row makes no `sqlite3_finalize`. -/
theorem bindnexec_row_failure_never_finalizes (E : Engine) (h : History) (sql : String)
    (rows : List Row) (bTran : Bool) (errid : Option Int) (err : Option String) (i : Nat)
    (hbegin : bTran = true → (E.exec (h ++ [.total_changes]) "BEGIN").1 = SQLITE_OK)
    (hprep : E.prepare (prepare_point h bTran) sql = SQLITE_OK)
    (hfail : fails_at E (loop_start h bTran sql) rows i = true)
    (hmin : ∀ j, j < i → fails_at E (loop_start h bTran sql) rows j = false) :
    (bindnexec E true h sql rows bTran errid err).hist.count .finalize = h.count .finalize := by
  obtain ⟨s, t1, t2, eh, ms, m1, _, _, _, m2, _⟩ :=
    bindnexec_failed_hist E h sql rows bTran errid err i hbegin hprep hfail hmin
  have z1 : s.count .finalize = 0 := by
    rw [List.count_eq_zero]
    intro hc
    rcases ms _ hc with e | e | e <;> cases e
  have z2 : t1.count .finalize = 0 := by
    rw [List.count_eq_zero]
    intro hc
    rcases m1 _ hc with e | e | e <;> cases e
  have z3 : t2.count .finalize = 0 := by
    rw [List.count_eq_zero]
    intro hc
    rcases m2 _ hc with e | e | e <;> cases e
  rw [eh]
  simp only [List.count_append, z1, z2, z3]
  omega

end Lemmas

end SQL
